import Mathlib

/-!
Verification of the Gaussdb_BufferPool repository.

Shallow embedding of the LRU buffer pool (`src/unnamed/part_000`,
`src/unnamed/part_002`) and the page frame (`src/src/page.cpp`,
`src/unnamed/part_003`) in Lean 4.  The backing file is modelled as a total
byte function (POSIX positional reads past end-of-file yield zeros, and
gaps created by extending writes are zero-filled, so a total function with
zeros for never-written positions is an exact model of the access pattern
used by the pool).  Permanent I/O errors are modelled by two failure flags
on the store; `EINTR` retry loops are invisible in a sequential model.
Machine integers: page numbers and sizes are `size_t`/`uint32_t`, far below
any overflow in every scenario considered, so they are modelled as `Nat`;
`pin_count_` is a C++ `int` and is modelled as `Int`.
-/

namespace Gaussdb

/-- One byte of page data (value of a `uint8_t`; arithmetic is never done on
page bytes, they are only copied, so `Nat` is a faithful carrier). -/
abbrev Byte := Nat

/-- The backing file plus fault-injection flags.  `content a` is the byte at
file offset `a` (zero for positions never written), `failRead`/`failWrite`
make every `pread`/`pwrite` fail with a permanent (non-`EINTR`) error. -/
structure Store where
  content : Nat → Byte
  failRead : Bool
  failWrite : Bool

/-- Positional read of `n` bytes at offset `off`, the effect of the
`pread` loop in `Page::load_from_fd` (short reads at EOF are zero-filled
by that loop, which the total `content` function already captures). -/
def Store.readBytes (st : Store) (off n : Nat) : List Byte :=
  (List.range n).map fun i => st.content (off + i)

/-- Positional write of the bytes `bs` at offset `off`, the effect of the
`pwrite` loop in `Page::flush_to_fd`. -/
def Store.writeBytes (st : Store) (off : Nat) (bs : List Byte) : Store :=
  { st with
    content := fun a =>
      if off ≤ a ∧ a < off + bs.length then bs.getD (a - off) 0 else st.content a }

/-- A page frame (`class Page` from `include/gaussdb/page.h` and
`src/page.cpp`): byte buffer plus metadata.  The reader-writer latch is
invisible in a sequential model; `lsn_` is informational and never read by
the pool, so it is omitted. -/
structure Page where
  pageId : Nat
  pageSize : Nat
  data : List Byte
  pinCount : Int
  dirty : Bool
  loaded : Bool
deriving DecidableEq

/-- `Page::Page(id, page_size, ...)`: the buffer is allocated zero-filled,
`pin_count_ = 0`, `dirty_ = false`, `loaded_ = false`. -/
def Page.construct (id size : Nat) : Page :=
  { pageId := id, pageSize := size, data := List.replicate size 0,
    pinCount := 0, dirty := false, loaded := false }

/-- `Page::pin()`: atomic increment of `pin_count_`. -/
def Page.pin (p : Page) : Page :=
  { p with pinCount := p.pinCount + 1 }

/-- `Page::unpin()`: `fetch_sub(1)` returning the previous value `prev`;
if `prev <= 0` the count is defensively clamped to `0` and `0` is
returned, otherwise `prev - 1` is returned.  Result: (updated page,
returned value). -/
def Page.unpin (p : Page) : Page × Int :=
  let prev := p.pinCount
  if prev ≤ 0 then ({ p with pinCount := 0 }, 0)
  else ({ p with pinCount := prev - 1 }, prev - 1)

/-- `Page::ReadAt(offset, out, len)`: returns the bytes copied into `out`
(the C++ returns the count, which is the length of this list).  `offset >=
page_size_` returns zero bytes immediately; an unloaded page returns zero
bytes; otherwise `min(len, page_size_ - offset)` bytes are copied out. -/
def Page.ReadAt (p : Page) (offset len : Nat) : List Byte :=
  if p.pageSize ≤ offset then []
  else if p.loaded = false then []
  else (p.data.drop offset).take (min len (p.pageSize - offset))

/-- `Page::WriteAt(offset, buf, len)`: `offset >= page_size_` returns `0`
with the page untouched; otherwise `loaded_ := true`, `min(len, page_size_
- offset)` bytes are copied in from `buf` and `dirty_ := true`.  The C++
reads the source bytes straight from the caller's pointer; a source list
shorter than the copy length stands for a buffer whose trailing bytes are
zero. -/
def Page.WriteAt (p : Page) (offset : Nat) (buf : List Byte) (len : Nat) :
    Page × Nat :=
  if p.pageSize ≤ offset then (p, 0)
  else
    let toWrite := min len (p.pageSize - offset)
    ({ p with
        loaded := true,
        data := p.data.take offset ++
          ((List.range toWrite).map fun i => buf.getD i 0) ++
          p.data.drop (offset + toWrite),
        dirty := true }, toWrite)

/-- `Page::load_from_fd(fd, file_offset)`: `pread` loop until `page_size_`
bytes are read, zero-filling at EOF; on a permanent error it returns
`false` (here `none`).  On success `loaded_ := true`, `dirty_ := false`. -/
def Page.load_from_fd (p : Page) (st : Store) (off : Nat) : Option Page :=
  if st.failRead then none
  else some { p with data := st.readBytes off p.pageSize,
                     loaded := true, dirty := false }

/-- `Page::flush_to_fd(fd, file_offset)`: not loaded returns `false`
(`none`); loaded but clean returns `true` without I/O; otherwise the
buffer is copied under the shared latch and written with a `pwrite` loop;
a permanent error returns `false`, success clears `dirty_`. -/
def Page.flush_to_fd (p : Page) (st : Store) (off : Nat) :
    Option (Store × Page) :=
  if p.loaded = false then none
  else if p.dirty = false then some (st, p)
  else if st.failWrite then none
  else some (st.writeBytes off p.data, { p with dirty := false })

/-! The pool's `std::unordered_map<pageno, std::shared_ptr<Page>> page_table_`
is modelled as an association list with unique keys (lookup finds the first
entry; keys are unique in every reachable state). -/

/-- `page_table_.find(no)`. -/
def lookupTable : List (Nat × Page) → Nat → Option Page
  | [], _ => none
  | (k, v) :: rest, no => if k = no then some v else lookupTable rest no

/-- `page_table_.erase(no)`: removes the (unique) entry with key `no`. -/
def eraseTable : List (Nat × Page) → Nat → List (Nat × Page)
  | [], _ => []
  | (k, v) :: rest, no => if k = no then rest else (k, v) :: eraseTable rest no

/-- In-place mutation of the shared `Page` object held in the table at key
`no` (the C++ table stores `shared_ptr`s, so mutating a page mutates the
table's value). -/
def updateTable : List (Nat × Page) → Nat → Page → List (Nat × Page)
  | [], _, _ => []
  | (k, v) :: rest, no, pg =>
      if k = no then (no, pg) :: rest else (k, v) :: updateTable rest no pg

/-- State of a `LRUBufferPool` (fields of `lru_buffer_pool.h`): the page
table, the recency list `lru_list_` (front = most recent), the
configuration-derived `capacity_` and `page_size_`, the two hit counters,
and the backing file reached through `fd_`.  The pool mutex `latch_` is
invisible in a sequential model. -/
structure PoolState where
  pageTable : List (Nat × Page)
  lruList : List Nat
  capacity : Nat
  pageSize : Nat
  hitCount : Nat
  missCount : Nat
  store : Store

/-- Pool state produced by `LRUBufferPool::LRUBufferPool` when the backing
file opens: empty table and list, zero counters; `page_size_`/`capacity_`
are the first entry of the (key-ordered) page-size map when it is
nonempty, and stay `0` when the map is empty.  `pageNoInfo` is the map's
entry list in `std::map` (ascending key) order. -/
def mkInitState (pageNoInfo : List (Nat × Nat)) (st : Store) : PoolState :=
  { pageTable := [], lruList := [],
    capacity := (match pageNoInfo with | [] => 0 | e :: _ => e.2),
    pageSize := (match pageNoInfo with | [] => 0 | e :: _ => e.1),
    hitCount := 0, missCount := 0, store := st }

/-- `LRUBufferPool::LRUBufferPool(file_name, page_no_info)`: the only
failure is `open` failing (modelled by `openOk`), which throws; the
page-size map is never validated. -/
def mkLRUBufferPool (pageNoInfo : List (Nat × Nat)) (openOk : Bool)
    (st : Store) : Except String PoolState :=
  if openOk then Except.ok (mkInitState pageNoInfo st)
  else Except.error "Failed to open file"

/-- `LRUBufferPool::MoveToFront(no)`: `lru_list_.remove(no)` (removes every
occurrence) then `push_front(no)`. -/
def MoveToFront (s : PoolState) (no : Nat) : PoolState :=
  { s with lruList := no :: s.lruList.filter (fun x => x != no) }

/-- `LRUBufferPool::FlushPage(page)`: a clean page is reported flushed
without I/O; otherwise `flush_to_fd` at offset `page->id() * page_size_`
(the pool page size, not the frame's own size).  Result: (store after,
page after, return value). -/
def FlushPage (st : Store) (pg : Page) (poolPageSize : Nat) :
    Store × Page × Bool :=
  if pg.dirty = false then (st, pg, true)
  else
    match pg.flush_to_fd st (pg.pageId * poolPageSize) with
    | none => (st, pg, false)
    | some (st2, pg2) => (st2, pg2, true)

/-- The eviction walk of `LRUBufferPool::EvictIfNeeded`, over the recency
list taken rear-first (`rbegin..rend`): the first page with
`pin_count() == 0` is the victim.  Returns the victim id, its frame, and
the walked list with the victim's node removed.  A list id missing from
the table is skipped (in every reachable state each listed id is in the
table; the C++ `page_table_[pid]` assumes as much). -/
def findVictim (table : List (Nat × Page)) :
    List Nat → Option (Nat × Page × List Nat)
  | [] => none
  | pid :: rest =>
      match lookupTable table pid with
      | some pg =>
          if pg.pinCount = 0 then some (pid, pg, rest)
          else
            match findVictim table rest with
            | some (v, vpg, rest2) => some (v, vpg, pid :: rest2)
            | none => none
      | none =>
          match findVictim table rest with
          | some (v, vpg, rest2) => some (v, vpg, pid :: rest2)
          | none => none

/-- `LRUBufferPool::EvictIfNeeded()`: nothing to do below capacity;
otherwise flush the LRU unpinned victim (the `FlushPage` return value is
ignored) and remove it from table and list; if every page is pinned, log a
warning and return with nothing evicted. -/
def EvictIfNeeded (s : PoolState) : PoolState :=
  if s.pageTable.length < s.capacity then s
  else
    match findVictim s.pageTable s.lruList.reverse with
    | none => s
    | some (pid, pg, rest2) =>
        let res := FlushPage s.store pg s.pageSize
        { s with store := res.1,
                 pageTable := eraseTable s.pageTable pid,
                 lruList := rest2.reverse }

/-- `LRUBufferPool::LoadPageFromDisk(no, page_size)`: allocates a fresh
frame (`make_shared` cannot yield null), loads it from offset
`no * page_size`, and on load failure zero-fills the buffer (leaving
`loaded_ = false`); the frame is returned in every case. -/
def LoadPageFromDisk (st : Store) (no pgSize : Nat) : Option Page :=
  let page := Page.construct no pgSize
  some
    (match page.load_from_fd st (no * pgSize) with
     | some p => p
     | none => { page with data := List.replicate pgSize 0 })

/-- `LRUBufferPool::GetPage(no, page_size)`: hit counts and touches; miss
counts, evicts if needed, loads, and inserts into table and list front.
The `if (!page) return nullptr` branch of the source is the `none` arm of
the inner match. -/
def GetPage (s : PoolState) (no pgSize : Nat) : Option Page × PoolState :=
  match lookupTable s.pageTable no with
  | some pg =>
      (some pg, MoveToFront { s with hitCount := s.hitCount + 1 } no)
  | none =>
      let s1 := EvictIfNeeded { s with missCount := s.missCount + 1 }
      match LoadPageFromDisk s1.store no pgSize with
      | none => (none, s1)
      | some page =>
          (some page, { s1 with pageTable := (no, page) :: s1.pageTable,
                                lruList := no :: s1.lruList })

/-- `LRUBufferPool::read_page(no, page_size, buf)`: get the page (on
failure log and return with nothing copied), pin it with a `PinGuard`,
`ReadAt(0, buf, page_size)`, unpin.  Result: (pool after, bytes copied
into `buf`). -/
def read_page (s : PoolState) (no pgSize : Nat) : PoolState × List Byte :=
  match GetPage s no pgSize with
  | (none, s1) => (s1, [])
  | (some page, s1) =>
      let pinned := page.pin
      let out := pinned.ReadAt 0 pgSize
      let after := (pinned.unpin).1
      ({ s1 with pageTable := updateTable s1.pageTable no after }, out)

/-- `LRUBufferPool::write_page(no, page_size, buf)`: get the page (on
failure log and return), pin it, `WriteAt(0, buf, page_size)`, unpin. -/
def write_page (s : PoolState) (no pgSize : Nat) (buf : List Byte) :
    PoolState :=
  match GetPage s no pgSize with
  | (none, s1) => s1
  | (some page, s1) =>
      let pinned := page.pin
      let written := (pinned.WriteAt 0 buf pgSize).1
      let after := (written.unpin).1
      { s1 with pageTable := updateTable s1.pageTable no after }

/-- Body of `LRUBufferPool::FlushAll()`: flush each table entry in turn
(`flush_to_fd` mutates the shared page, clearing `dirty_` on success;
failures are ignored), threading the backing store through. -/
def flushEntries (ps : Nat) :
    List (Nat × Page) → Store → List (Nat × Page) × Store
  | [], st => ([], st)
  | (k, pg) :: rest, st =>
      let res := FlushPage st pg ps
      let tail := flushEntries ps rest res.1
      ((k, res.2.1) :: tail.1, tail.2)

/-- `LRUBufferPool::FlushAll()` under the pool mutex. -/
def FlushAll (s : PoolState) : PoolState :=
  let res := flushEntries s.pageSize s.pageTable s.store
  { s with pageTable := res.1, store := res.2 }

/-- A public pool operation, for stating state invariants over arbitrary
operation sequences. -/
inductive PoolOp where
  | readOp (no pgSize : Nat)
  | writeOp (no pgSize : Nat) (buf : List Byte)
  | flushAllOp

/-- Apply one public operation. -/
def applyOp (s : PoolState) : PoolOp → PoolState
  | .readOp no ps => (read_page s no ps).1
  | .writeOp no ps buf => write_page s no ps buf
  | .flushAllOp => FlushAll s

/-- Run a sequence of public operations. -/
def runOps : PoolState → List PoolOp → PoolState
  | s, [] => s
  | s, op :: rest => runOps (applyOp s op) rest

/-- Run a sequence of `write_page` calls, each at the pool's page size (the
supported single-size mode). -/
def runWrites : PoolState → List (Nat × List Byte) → PoolState
  | s, [] => s
  | s, (j, buf) :: rest => runWrites (write_page s j s.pageSize buf) rest

/-- The frame produced by a successful miss-path load of page `no` from
store `st` (`LoadPageFromDisk` when the positional read succeeds). -/
def loadedPage (st : Store) (no ps : Nat) : Page :=
  { pageId := no, pageSize := ps, data := st.readBytes (no * ps) ps,
    pinCount := 0, dirty := false, loaded := true }

/-- The pool state on the miss path right after the miss counter advance
and the eviction step, before the load and insert. -/
def missEvicted (s : PoolState) : PoolState :=
  EvictIfNeeded { s with missCount := s.missCount + 1 }

/-! Invariant predicates (spec section 8) over a pool state. -/

/-- Neither permanent-failure flag is set on the backing store. -/
def storeOk (s : PoolState) : Prop :=
  s.store.failRead = false ∧ s.store.failWrite = false

/-- The page table's keys are pairwise distinct (always true of an
`unordered_map`). -/
def keysNodup (s : PoolState) : Prop := (s.pageTable.map Prod.fst).Nodup

/-- A page id is in the Index exactly when it is in the Recency list. -/
def TableListMatch (s : PoolState) : Prop :=
  ∀ k, (lookupTable s.pageTable k).isSome ↔ k ∈ s.lruList

/-- Every resident frame is unpinned (holds at the end of every public
operation: each `PinGuard` is balanced within its operation). -/
def pinsZero (s : PoolState) : Prop :=
  ∀ k pg, lookupTable s.pageTable k = some pg → pg.pinCount = 0

/-- Each resident frame carries its own key as id, has the pool's page
size, a full-size buffer, and is loaded. -/
def GoodFrames (s : PoolState) : Prop :=
  ∀ k pg, lookupTable s.pageTable k = some pg →
    pg.pageId = k ∧ pg.pageSize = s.pageSize ∧
    pg.data.length = s.pageSize ∧ pg.loaded = true

/-- Structural well-formedness: the Index-Recency bijection, no duplicate
recency nodes or keys, and balanced pins. -/
def PoolWF (s : PoolState) : Prop :=
  TableListMatch s ∧ s.lruList.Nodup ∧ keysNodup s ∧ pinsZero s

/-- The page-size span of page `k` on the backing store. -/
def storePage (s : PoolState) (k : Nat) : List Byte :=
  s.store.readBytes (k * s.pageSize) s.pageSize

/-- Page `k` currently holds the bytes `b`: its resident frame (if any)
holds `b`, and whenever no dirty resident copy exists the backing store
holds `b` at `k`'s span. -/
def represents (s : PoolState) (k : Nat) (b : List Byte) : Prop :=
  (∀ pg, lookupTable s.pageTable k = some pg →
     pg.data = b ∧ (pg.dirty = false → storePage s k = b))
  ∧ (lookupTable s.pageTable k = none → storePage s k = b)

/-- Frame/store healthiness needed for the round-trip law. -/
def C1Good (s : PoolState) : Prop := GoodFrames s ∧ keysNodup s ∧ storeOk s

/-! Concrete stores, pages and pool states used by witnesses and
counterexamples. -/

/-- A healthy backing store whose file reads as all zeros. -/
def zeroStore : Store :=
  { content := fun _ => 0, failRead := false, failWrite := false }

/-- A store whose positional reads fail permanently. -/
def failReadStore : Store :=
  { content := fun _ => 0, failRead := true, failWrite := false }

/-- A store whose positional writes fail permanently. -/
def failWriteStore : Store :=
  { content := fun _ => 0, failRead := false, failWrite := true }

/-- A resident dirty frame currently pinned by some holder. -/
def pinnedPage : Page :=
  { pageId := 0, pageSize := 2, data := [9, 9], pinCount := 1,
    dirty := true, loaded := true }

/-- A full pool (capacity 1) whose only resident frame is pinned. -/
def allPinnedPool : PoolState :=
  { pageTable := [(0, pinnedPage)], lruList := [0], capacity := 1,
    pageSize := 2, hitCount := 0, missCount := 0, store := zeroStore }

/-- An unpinned dirty loaded frame. -/
def dirtyPage : Page :=
  { pageId := 5, pageSize := 2, data := [7, 8], pinCount := 0,
    dirty := true, loaded := true }

/-- A full pool holding one dirty evictable frame over a store whose
writes fail. -/
def dirtyPoolBadStore : PoolState :=
  { pageTable := [(5, dirtyPage)], lruList := [5], capacity := 1,
    pageSize := 2, hitCount := 0, missCount := 0, store := failWriteStore }

/-- The same full pool over a healthy store. -/
def dirtyPoolGoodStore : PoolState :=
  { dirtyPoolBadStore with store := zeroStore }

/-- A capacity-1 pool over the failing-read store. -/
def failReadPool : PoolState := mkInitState [(2, 1)] failReadStore

/-- A loaded clean frame with known contents. -/
def samplePage : Page :=
  { pageId := 3, pageSize := 4, data := [1, 2, 3, 4], pinCount := 0,
    dirty := false, loaded := true }

/-- The sample frame pinned three times. -/
def pagePinned3 : Page := { samplePage with pinCount := 3 }

/-! ## Helper lemmas about the table, the recency list and the store -/

theorem lookupTable_eq_none_iff (t : List (Nat × Page)) (k : Nat) :
    lookupTable t k = none ↔ k ∉ t.map Prod.fst := by
  induction t with
  | nil => simp [lookupTable]
  | cons e rest ih =>
      obtain ⟨a, v⟩ := e
      by_cases h : a = k
      · subst h; simp [lookupTable]
      · simp [lookupTable, h, ih, Ne.symm h]

theorem lookupTable_isSome_iff (t : List (Nat × Page)) (k : Nat) :
    (lookupTable t k).isSome = true ↔ k ∈ t.map Prod.fst := by
  induction t with
  | nil => simp [lookupTable]
  | cons e rest ih =>
      obtain ⟨a, v⟩ := e
      by_cases h : a = k
      · subst h; simp [lookupTable]
      · simp [lookupTable, h, ih, Ne.symm h]

theorem lookup_eraseTable_of_ne (t : List (Nat × Page)) (v k : Nat)
    (h : v ≠ k) : lookupTable (eraseTable t v) k = lookupTable t k := by
  induction t with
  | nil => rfl
  | cons e rest ih =>
      obtain ⟨a, w⟩ := e
      by_cases ha : a = v
      · subst ha
        simp [eraseTable, lookupTable, h]
      · by_cases hk : a = k
        · subst hk; simp [eraseTable, lookupTable, ha]
        · simp [eraseTable, lookupTable, ha, hk, ih]

theorem keys_eraseTable (t : List (Nat × Page)) (v : Nat) :
    (eraseTable t v).map Prod.fst = (t.map Prod.fst).erase v := by
  induction t with
  | nil => rfl
  | cons e rest ih =>
      obtain ⟨a, w⟩ := e
      by_cases ha : a = v
      · subst ha; simp [eraseTable, List.erase_cons_head]
      · simp [eraseTable, ha, List.erase_cons, Ne.symm ha, ih]

theorem lookup_eraseTable_self (t : List (Nat × Page)) (v : Nat)
    (hnd : (t.map Prod.fst).Nodup) :
    lookupTable (eraseTable t v) v = none := by
  rw [lookupTable_eq_none_iff, keys_eraseTable]
  exact (hnd.erase_eq_filter v ▸ fun hmem =>
    (by simpa using (List.mem_filter.mp hmem).2))

theorem lookup_eraseTable_some_imp (t : List (Nat × Page)) (v k : Nat)
    (pg : Page) (hnd : (t.map Prod.fst).Nodup)
    (h : lookupTable (eraseTable t v) k = some pg) :
    lookupTable t k = some pg := by
  by_cases hvk : v = k
  · subst hvk; rw [lookup_eraseTable_self t v hnd] at h; cases h
  · rwa [lookup_eraseTable_of_ne t v k hvk] at h

theorem lookup_eraseTable_none (t : List (Nat × Page)) (v k : Nat)
    (h : lookupTable t k = none) :
    lookupTable (eraseTable t v) k = none := by
  rw [lookupTable_eq_none_iff] at h ⊢
  rw [keys_eraseTable]
  exact fun hmem => h (List.mem_of_mem_erase hmem)

theorem length_eraseTable_of_mem (t : List (Nat × Page)) (v : Nat)
    (pg : Page) (h : lookupTable t v = some pg) :
    (eraseTable t v).length + 1 = t.length := by
  induction t with
  | nil => cases h
  | cons e rest ih =>
      obtain ⟨a, w⟩ := e
      by_cases ha : a = v
      · subst ha; simp [eraseTable]
      · simp only [lookupTable, if_neg ha] at h
        simp [eraseTable, ha, ih h]

theorem keys_updateTable (t : List (Nat × Page)) (k : Nat) (pg : Page) :
    (updateTable t k pg).map Prod.fst = t.map Prod.fst := by
  induction t with
  | nil => rfl
  | cons e rest ih =>
      obtain ⟨a, w⟩ := e
      by_cases ha : a = k
      · subst ha; simp [updateTable]
      · simp [updateTable, ha, ih]

theorem length_updateTable (t : List (Nat × Page)) (k : Nat) (pg : Page) :
    (updateTable t k pg).length = t.length := by
  have := congrArg List.length (keys_updateTable t k pg)
  simpa using this

theorem lookup_updateTable_of_ne (t : List (Nat × Page)) (k j : Nat)
    (pg : Page) (h : j ≠ k) :
    lookupTable (updateTable t k pg) j = lookupTable t j := by
  induction t with
  | nil => rfl
  | cons e rest ih =>
      obtain ⟨a, w⟩ := e
      by_cases ha : a = k
      · subst ha
        simp [updateTable, lookupTable, Ne.symm h]
      · by_cases hj : a = j
        · subst hj; simp [updateTable, ha, lookupTable]
        · simp [updateTable, ha, hj, lookupTable, ih]

theorem lookup_updateTable_self (t : List (Nat × Page)) (k : Nat)
    (pg pg0 : Page) (h : lookupTable t k = some pg0) :
    lookupTable (updateTable t k pg) k = some pg := by
  induction t with
  | nil => cases h
  | cons e rest ih =>
      obtain ⟨a, w⟩ := e
      by_cases ha : a = k
      · subst ha; simp [updateTable, lookupTable]
      · simp only [lookupTable, if_neg ha] at h
        simp [updateTable, ha, lookupTable, ih h]

theorem findVictim_none_of_all_pinned (table : List (Nat × Page))
    (l : List Nat)
    (h : ∀ k pg, lookupTable table k = some pg → pg.pinCount ≠ 0) :
    findVictim table l = none := by
  induction l with
  | nil => rfl
  | cons pid rest ih =>
      unfold findVictim
      cases hl : lookupTable table pid with
      | some pg =>
          simp only [hl]
          rw [if_neg (h pid pg hl), ih]
      | none =>
          simp only [hl]
          rw [ih]

theorem findVictim_some_spec (table : List (Nat × Page)) (l : List Nat)
    (v : Nat) (pg : Page) (l2 : List Nat)
    (h : findVictim table l = some (v, pg, l2)) :
    lookupTable table v = some pg ∧ pg.pinCount = 0 ∧
    ∃ lft rgt, l = lft ++ v :: rgt ∧ l2 = lft ++ rgt := by
  induction l generalizing l2 with
  | nil => cases h
  | cons pid rest ih =>
      unfold findVictim at h
      cases hl : lookupTable table pid with
      | some pg0 =>
          simp only [hl] at h
          by_cases hp : pg0.pinCount = 0
          · rw [if_pos hp] at h
            obtain ⟨rfl, rfl, rfl⟩ :
                pid = v ∧ pg0 = pg ∧ rest = l2 := by
              injection h with h2
              exact ⟨congrArg (·.1) h2, congrArg (·.2.1) h2,
                congrArg (·.2.2) h2⟩
            exact ⟨hl, hp, [], rest, rfl, rfl⟩
          · rw [if_neg hp] at h
            cases hrec : findVictim table rest with
            | none => simp only [hrec] at h; exact Option.noConfusion h
            | some trip =>
                obtain ⟨v2, pg2, rest2⟩ := trip
                simp only [hrec] at h
                obtain ⟨rfl, rfl, rfl⟩ :
                    v2 = v ∧ pg2 = pg ∧ pid :: rest2 = l2 := by
                  injection h with h2
                  exact ⟨congrArg (·.1) h2, congrArg (·.2.1) h2,
                    congrArg (·.2.2) h2⟩
                obtain ⟨hlook, hpin, lft, rgt, hsplit, hrem⟩ :=
                  ih rest2 hrec
                exact ⟨hlook, hpin, pid :: lft, rgt, by simp [hsplit],
                  by simp [hrem]⟩
      | none =>
          simp only [hl] at h
          cases hrec : findVictim table rest with
          | none => simp only [hrec] at h; exact Option.noConfusion h
          | some trip =>
              obtain ⟨v2, pg2, rest2⟩ := trip
              simp only [hrec] at h
              obtain ⟨rfl, rfl, rfl⟩ :
                  v2 = v ∧ pg2 = pg ∧ pid :: rest2 = l2 := by
                injection h with h2
                exact ⟨congrArg (·.1) h2, congrArg (·.2.1) h2,
                  congrArg (·.2.2) h2⟩
              obtain ⟨hlook, hpin, lft, rgt, hsplit, hrem⟩ := ih rest2 hrec
              exact ⟨hlook, hpin, pid :: lft, rgt, by simp [hsplit],
                by simp [hrem]⟩

theorem findVictim_isSome (table : List (Nat × Page)) (l : List Nat)
    (pid : Nat) (pg : Page) (hmem : pid ∈ l)
    (hlook : lookupTable table pid = some pg) (hpin : pg.pinCount = 0) :
    (findVictim table l).isSome = true := by
  induction l with
  | nil => cases hmem
  | cons q rest ih =>
      unfold findVictim
      rcases List.mem_cons.mp hmem with hq | hrest
      · subst hq
        simp only [hlook]
        rw [if_pos hpin]
        rfl
      · cases hl : lookupTable table q with
        | some pg0 =>
            simp only [hl]
            by_cases hp : pg0.pinCount = 0
            · rw [if_pos hp]; rfl
            · rw [if_neg hp]
              cases hrec : findVictim table rest with
              | none =>
                  rw [hrec] at ih
                  exact absurd (ih hrest) (by simp)
              | some trip =>
                  obtain ⟨a, b, c⟩ := trip
                  simp only [hrec, Option.isSome_some]
        | none =>
            simp only [hl]
            cases hrec : findVictim table rest with
            | none =>
                rw [hrec] at ih
                exact absurd (ih hrest) (by simp)
            | some trip =>
                obtain ⟨a, b, c⟩ := trip
                simp only [hrec, Option.isSome_some]

theorem length_readBytes (st : Store) (off n : Nat) :
    (st.readBytes off n).length = n := by
  simp [Store.readBytes]

theorem writeBytes_failRead (st : Store) (off : Nat) (bs : List Byte) :
    (st.writeBytes off bs).failRead = st.failRead := rfl

theorem writeBytes_failWrite (st : Store) (off : Nat) (bs : List Byte) :
    (st.writeBytes off bs).failWrite = st.failWrite := rfl

theorem readBytes_writeBytes_self (st : Store) (off : Nat) (bs : List Byte) :
    (st.writeBytes off bs).readBytes off bs.length = bs := by
  apply List.ext_getElem
  · simp [Store.readBytes]
  · intro i h1 h2
    rw [length_readBytes] at h1
    simp only [Store.readBytes, Store.writeBytes, List.getElem_map,
      List.getElem_range]
    rw [if_pos ⟨Nat.le_add_right off i, by omega⟩]
    simp only [Nat.add_sub_cancel_left]
    exact List.getD_eq_getElem bs 0 h1

theorem readBytes_writeBytes_disjoint (st : Store) (off1 off2 n : Nat)
    (bs : List Byte)
    (h : ∀ i, i < n → ¬(off2 ≤ off1 + i ∧ off1 + i < off2 + bs.length)) :
    (st.writeBytes off2 bs).readBytes off1 n = st.readBytes off1 n := by
  apply List.ext_getElem
  · simp [Store.readBytes]
  · intro i h1 h2
    rw [length_readBytes] at h1
    simp only [Store.readBytes, Store.writeBytes, List.getElem_map,
      List.getElem_range]
    rw [if_neg (h i h1)]

/-! ## Helper lemmas about FlushPage and EvictIfNeeded -/

theorem FlushPage_spec (st : Store) (pg : Page) (ps : Nat) :
    (pg.dirty = false → FlushPage st pg ps = (st, pg, true))
    ∧ (pg.dirty = true → pg.loaded = false →
        FlushPage st pg ps = (st, pg, false))
    ∧ (pg.dirty = true → pg.loaded = true → st.failWrite = true →
        FlushPage st pg ps = (st, pg, false))
    ∧ (pg.dirty = true → pg.loaded = true → st.failWrite = false →
        FlushPage st pg ps
          = (st.writeBytes (pg.pageId * ps) pg.data,
             { pg with dirty := false }, true)) := by
  refine ⟨fun hd => ?_, fun hd hl => ?_, fun hd hl hw => ?_,
    fun hd hl hw => ?_⟩
  · unfold FlushPage; rw [if_pos hd]
  · unfold FlushPage Page.flush_to_fd
    rw [if_neg (by simp [hd]), if_pos hl]
  · unfold FlushPage Page.flush_to_fd
    rw [if_neg (by simp [hd]), if_neg (by simp [hl]),
      if_neg (by simp [hd]), if_pos hw]
  · unfold FlushPage Page.flush_to_fd
    rw [if_neg (by simp [hd]), if_neg (by simp [hl]),
      if_neg (by simp [hd]), if_neg (by simp [hw])]

theorem FlushPage_store_cases (st : Store) (pg : Page) (ps : Nat) :
    (FlushPage st pg ps).1 = st
    ∨ (FlushPage st pg ps).1 = st.writeBytes (pg.pageId * ps) pg.data := by
  obtain ⟨h1, h2, h3, h4⟩ := FlushPage_spec st pg ps
  cases hd : pg.dirty
  · rw [h1 hd]; exact Or.inl rfl
  · cases hl : pg.loaded
    · rw [h2 hd hl]; exact Or.inl rfl
    · cases hw : st.failWrite
      · rw [h4 hd hl hw]; exact Or.inr rfl
      · rw [h3 hd hl hw]; exact Or.inl rfl

theorem FlushPage_store_failRead (st : Store) (pg : Page) (ps : Nat) :
    (FlushPage st pg ps).1.failRead = st.failRead := by
  rcases FlushPage_store_cases st pg ps with h | h
  · rw [h]
  · rw [h]; rfl

theorem FlushPage_store_failWrite (st : Store) (pg : Page) (ps : Nat) :
    (FlushPage st pg ps).1.failWrite = st.failWrite := by
  rcases FlushPage_store_cases st pg ps with h | h
  · rw [h]
  · rw [h]; rfl

theorem FlushPage_page_meta (st : Store) (pg : Page) (ps : Nat) :
    (FlushPage st pg ps).2.1.pageId = pg.pageId
    ∧ (FlushPage st pg ps).2.1.pageSize = pg.pageSize
    ∧ (FlushPage st pg ps).2.1.data = pg.data
    ∧ (FlushPage st pg ps).2.1.loaded = pg.loaded
    ∧ (FlushPage st pg ps).2.1.pinCount = pg.pinCount := by
  obtain ⟨h1, h2, h3, h4⟩ := FlushPage_spec st pg ps
  cases hd : pg.dirty
  · rw [h1 hd]; exact ⟨rfl, rfl, rfl, rfl, rfl⟩
  · cases hl : pg.loaded
    · rw [h2 hd hl]; exact ⟨rfl, rfl, rfl, hl, rfl⟩
    · cases hw : st.failWrite
      · rw [h4 hd hl hw]; exact ⟨rfl, rfl, rfl, hl, rfl⟩
      · rw [h3 hd hl hw]; exact ⟨rfl, rfl, rfl, hl, rfl⟩

theorem evict_eq_self_of_all_pinned (s : PoolState)
    (hpin : ∀ k pg, lookupTable s.pageTable k = some pg →
      pg.pinCount ≠ 0) :
    EvictIfNeeded s = s := by
  unfold EvictIfNeeded
  split
  · rfl
  · rw [findVictim_none_of_all_pinned _ _ hpin]

theorem evict_fields (s : PoolState) :
    (EvictIfNeeded s).capacity = s.capacity
    ∧ (EvictIfNeeded s).pageSize = s.pageSize
    ∧ (EvictIfNeeded s).hitCount = s.hitCount
    ∧ (EvictIfNeeded s).missCount = s.missCount := by
  unfold EvictIfNeeded
  split
  · exact ⟨rfl, rfl, rfl, rfl⟩
  · split
    · exact ⟨rfl, rfl, rfl, rfl⟩
    · exact ⟨rfl, rfl, rfl, rfl⟩

theorem evict_store_flags (s : PoolState) :
    (EvictIfNeeded s).store.failRead = s.store.failRead
    ∧ (EvictIfNeeded s).store.failWrite = s.store.failWrite := by
  unfold EvictIfNeeded
  split
  · exact ⟨rfl, rfl⟩
  · split
    · exact ⟨rfl, rfl⟩
    · exact ⟨FlushPage_store_failRead _ _ _, FlushPage_store_failWrite _ _ _⟩

theorem evict_lookup_none (s : PoolState) (no : Nat)
    (h : lookupTable s.pageTable no = none) :
    lookupTable (EvictIfNeeded s).pageTable no = none := by
  unfold EvictIfNeeded
  split
  · exact h
  · split
    · exact h
    · exact lookup_eraseTable_none _ _ _ h

theorem LoadPageFromDisk_fail (st : Store) (no ps : Nat)
    (h : st.failRead = true) :
    LoadPageFromDisk st no ps = some (Page.construct no ps) := by
  unfold LoadPageFromDisk Page.load_from_fd Page.construct
  simp [h]

theorem LoadPageFromDisk_ok (st : Store) (no ps : Nat)
    (h : st.failRead = false) :
    LoadPageFromDisk st no ps = some (loadedPage st no ps) := by
  unfold LoadPageFromDisk Page.load_from_fd Page.construct loadedPage
  simp [h]

theorem lookup_updateTable_isSome (t : List (Nat × Page)) (no : Nat)
    (pgnew : Page) (k : Nat) :
    (lookupTable (updateTable t no pgnew) k).isSome
      = (lookupTable t k).isSome := by
  induction t with
  | nil => rfl
  | cons e rest ih =>
      obtain ⟨a, w⟩ := e
      by_cases ha : a = no
      · subst ha
        by_cases hk : a = k
        · subst hk; simp [updateTable, lookupTable]
        · simp [updateTable, lookupTable, hk]
      · by_cases hk : a = k
        · subst hk; simp [updateTable, lookupTable, ha]
        · simp [updateTable, lookupTable, ha, hk, ih]

theorem lookup_updateTable_some (t : List (Nat × Page)) (no : Nat)
    (pgnew : Page) (k : Nat) (pg2 : Page)
    (h : lookupTable (updateTable t no pgnew) k = some pg2) :
    pg2 = pgnew ∨ lookupTable t k = some pg2 := by
  induction t with
  | nil => cases h
  | cons e rest ih =>
      obtain ⟨a, w⟩ := e
      unfold updateTable at h
      by_cases ha : a = no
      · rw [if_pos ha] at h
        unfold lookupTable at h
        by_cases hk : no = k
        · rw [if_pos hk] at h
          exact Or.inl (Option.some.inj h).symm
        · rw [if_neg hk] at h
          right
          unfold lookupTable
          rw [if_neg (ha ▸ hk)]
          exact h
      · rw [if_neg ha] at h
        unfold lookupTable at h ⊢
        by_cases hk : a = k
        · rw [if_pos hk] at h ⊢
          exact Or.inr h
        · rw [if_neg hk] at h ⊢
          exact ih h

/-- Case analysis of `GetPage`: the hit path touches the recency list and
counts a hit; the miss path counts a miss, evicts if needed, loads a frame
(whose pin count is zero) and inserts it at the front of table and list. -/
theorem GetPage_cases (s : PoolState) (no ps : Nat) :
    (∃ pg, lookupTable s.pageTable no = some pg
      ∧ GetPage s no ps = (some pg,
          { s with hitCount := s.hitCount + 1,
                   lruList := no :: s.lruList.filter (fun x => x != no) }))
    ∨ (lookupTable s.pageTable no = none
      ∧ ∃ pg, pg.pinCount = 0 ∧ pg.pageId = no ∧ pg.pageSize = ps
        ∧ GetPage s no ps = (some pg,
            { missEvicted s with
                pageTable := (no, pg) :: (missEvicted s).pageTable,
                lruList := no :: (missEvicted s).lruList })
        ∧ ((missEvicted s).store.failRead = false →
            pg = loadedPage (missEvicted s).store no ps)
        ∧ ((missEvicted s).store.failRead = true →
            pg = Page.construct no ps)) := by
  cases hl : lookupTable s.pageTable no with
  | some pg =>
      left
      refine ⟨pg, rfl, ?_⟩
      unfold GetPage MoveToFront
      simp only [hl]
  | none =>
      right
      refine ⟨rfl, ?_⟩
      cases hfr : (missEvicted s).store.failRead
      · refine ⟨loadedPage (missEvicted s).store no ps, rfl, rfl, rfl, ?_,
          fun _ => rfl, fun hc => Bool.noConfusion hc⟩
        have hload := LoadPageFromDisk_ok (missEvicted s).store no ps hfr
        unfold GetPage
        unfold missEvicted at hload ⊢
        simp only [hl, hload]
      · refine ⟨Page.construct no ps, rfl, rfl, rfl, ?_,
          fun hc => Bool.noConfusion hc, fun _ => rfl⟩
        have hload := LoadPageFromDisk_fail (missEvicted s).store no ps hfr
        unfold GetPage
        unfold missEvicted at hload ⊢
        simp only [hl, hload]

/-- The pool state after `read_page`, given the `GetPage` outcome. -/
theorem read_page_state (s : PoolState) (no ps : Nat) (pg : Page)
    (s1 : PoolState) (hget : GetPage s no ps = (some pg, s1)) :
    (read_page s no ps).1
      = { s1 with pageTable :=
            updateTable s1.pageTable no ((pg.pin).unpin).1 } := by
  unfold read_page
  rw [hget]

/-- The pool state after `write_page`, given the `GetPage` outcome. -/
theorem write_page_state (s : PoolState) (no ps : Nat) (buf : List Byte)
    (pg : Page) (s1 : PoolState) (hget : GetPage s no ps = (some pg, s1)) :
    write_page s no ps buf
      = { s1 with pageTable :=
            updateTable s1.pageTable no ((((pg.pin).WriteAt 0 buf ps).1.unpin).1) } := by
  unfold write_page
  rw [hget]

/-- `GetPage` never changes the capacity, the page size, or the failure
flags of the store. -/
theorem GetPage_fixed (s : PoolState) (no ps : Nat) :
    (GetPage s no ps).2.capacity = s.capacity
    ∧ (GetPage s no ps).2.pageSize = s.pageSize
    ∧ (GetPage s no ps).2.store.failRead = s.store.failRead
    ∧ (GetPage s no ps).2.store.failWrite = s.store.failWrite := by
  rcases GetPage_cases s no ps with ⟨pg, hl, hg⟩ | ⟨hl, pg, hp, hid, hsz, hg, hok, hfail⟩
  · rw [hg]; exact ⟨rfl, rfl, rfl, rfl⟩
  · rw [hg]
    unfold missEvicted
    exact ⟨(evict_fields _).1, (evict_fields _).2.1,
      (evict_store_flags _).1, (evict_store_flags _).2⟩

theorem WriteAt_pinCount (pg : Page) (offset : Nat) (buf : List Byte)
    (len : Nat) : ((pg.WriteAt offset buf len).1).pinCount = pg.pinCount := by
  unfold Page.WriteAt
  split <;> rfl

theorem pin_unpin_pinCount0 (pg : Page) (h : pg.pinCount = 0) :
    ((pg.pin).unpin).1.pinCount = 0 := by
  unfold Page.pin Page.unpin
  simp [h]

theorem pin_write_unpin_pinCount0 (pg : Page) (buf : List Byte) (ps : Nat)
    (h : pg.pinCount = 0) :
    ((((pg.pin).WriteAt 0 buf ps).1.unpin).1).pinCount = 0 := by
  have h1 : (((pg.pin).WriteAt 0 buf ps).1).pinCount = 1 := by
    rw [WriteAt_pinCount]
    unfold Page.pin
    simp [h]
  unfold Page.unpin
  rw [if_neg (by rw [h1]; omega)]
  show (((pg.pin).WriteAt 0 buf ps).1).pinCount - 1 = 0
  rw [h1]
  decide

/-- A hit's touch (hit count advance plus move-to-front) preserves the
structural well-formedness. -/
theorem WF_touch (s : PoolState) (no : Nat) (h : PoolWF s)
    (hhit : (lookupTable s.pageTable no).isSome = true) :
    PoolWF { s with hitCount := s.hitCount + 1,
                    lruList := no :: s.lruList.filter (fun x => x != no) } := by
  obtain ⟨hm, hnd, hkn, hpz⟩ := h
  refine ⟨?_, ?_, hkn, hpz⟩
  · intro k
    by_cases hk : k = no
    · subst hk
      simp [hhit]
    · simp only [List.mem_cons, hk, false_or, List.mem_filter,
        bne_iff_ne, ne_eq, hk, not_false_eq_true, and_true]
      exact hm k
  · refine List.nodup_cons.mpr ⟨?_, hnd.filter _⟩
    intro hmem
    have := (List.mem_filter.mp hmem).2
    simp at this

/-- Inserting a fresh unpinned frame for an absent page preserves the
structural well-formedness. -/
theorem WF_insert (s1 : PoolState) (no : Nat) (pg : Page)
    (h : PoolWF s1) (hmiss : lookupTable s1.pageTable no = none)
    (hpin : pg.pinCount = 0) :
    PoolWF { s1 with pageTable := (no, pg) :: s1.pageTable,
                     lruList := no :: s1.lruList } := by
  obtain ⟨hm, hnd, hkn, hpz⟩ := h
  have hnotin : no ∉ s1.lruList := by
    intro hmem
    have := (hm no).mpr hmem
    rw [hmiss] at this
    cases this
  refine ⟨?_, List.nodup_cons.mpr ⟨hnotin, hnd⟩, ?_, ?_⟩
  · intro k
    by_cases hk : k = no
    · subst hk
      simp [lookupTable, List.mem_cons]
    · show (lookupTable ((no, pg) :: s1.pageTable) k).isSome = true
        ↔ k ∈ no :: s1.lruList
      unfold lookupTable
      rw [if_neg (fun hh => hk hh.symm)]
      simp only [List.mem_cons, hk, false_or]
      exact hm k
  · show (no :: s1.pageTable.map Prod.fst).Nodup
    exact List.nodup_cons.mpr ⟨(lookupTable_eq_none_iff _ _).mp hmiss, hkn⟩
  · intro k pg2 hl2
    show pg2.pinCount = 0
    unfold lookupTable at hl2
    by_cases hk : no = k
    · rw [if_pos hk] at hl2
      cases hl2; exact hpin
    · rw [if_neg hk] at hl2
      exact hpz k pg2 hl2

/-- Writing an unpinned frame back through the shared handle preserves the
structural well-formedness. -/
theorem WF_updateTable (s1 : PoolState) (no : Nat) (pgnew : Page)
    (h : PoolWF s1) (hpin : pgnew.pinCount = 0) :
    PoolWF { s1 with pageTable := updateTable s1.pageTable no pgnew } := by
  obtain ⟨hm, hnd, hkn, hpz⟩ := h
  refine ⟨?_, hnd, ?_, ?_⟩
  · intro k
    show (lookupTable (updateTable s1.pageTable no pgnew) k).isSome = true
      ↔ k ∈ s1.lruList
    rw [lookup_updateTable_isSome]
    exact hm k
  · show ((updateTable s1.pageTable no pgnew).map Prod.fst).Nodup
    rw [keys_updateTable]
    exact hkn
  · intro k pg2 hl2
    rcases lookup_updateTable_some _ _ _ _ _ hl2 with heq | hl3
    · rw [heq]; exact hpin
    · exact hpz k pg2 hl3

/-- Eviction preserves the structural well-formedness. -/
theorem WF_evict (s : PoolState) (h : PoolWF s) :
    PoolWF (EvictIfNeeded s) := by
  unfold EvictIfNeeded
  split
  · exact h
  · split
    · exact h
    · rename_i pid pg rest2 heq
      obtain ⟨hm, hnd, hkn, hpz⟩ := h
      obtain ⟨hlook, hpin0, lft, rgt, hsplit, hrem⟩ :=
        findVictim_some_spec _ _ _ _ _ heq
      have hrevnd : s.lruList.reverse.Nodup := List.nodup_reverse.mpr hnd
      rw [hsplit] at hrevnd
      have hpidlft : pid ∉ lft := fun hx =>
        (List.disjoint_of_nodup_append hrevnd hx) (List.mem_cons_self _ _)
      have hpidrgt : pid ∉ rgt :=
        (List.nodup_cons.mp (List.Nodup.of_append_right hrevnd)).1
      have hnd2 : (lft ++ rgt).Nodup :=
        hrevnd.sublist ((List.sublist_cons_self pid rgt).append_left lft)
      have hmemlru : ∀ k, k ∈ s.lruList ↔ k ∈ lft ++ pid :: rgt := by
        intro k
        rw [← List.mem_reverse, hsplit]
      refine ⟨?_, ?_, ?_, ?_⟩
      · intro k
        show (lookupTable (eraseTable s.pageTable pid) k).isSome = true
          ↔ k ∈ rest2.reverse
        by_cases hk : k = pid
        · subst hk
          rw [lookup_eraseTable_self _ _ hkn]
          simp only [Option.isSome_none, Bool.false_eq_true, false_iff]
          rw [List.mem_reverse, hrem]
          simp only [List.mem_append]
          rintro (hx | hx)
          · exact hpidlft hx
          · exact hpidrgt hx
        · rw [lookup_eraseTable_of_ne _ _ _ (fun hh => hk hh.symm)]
          rw [hm k, hmemlru k, List.mem_reverse, hrem]
          simp [List.mem_append, List.mem_cons, hk]
      · show rest2.reverse.Nodup
        rw [hrem]
        exact List.nodup_reverse.mpr hnd2
      · show ((eraseTable s.pageTable pid).map Prod.fst).Nodup
        rw [keys_eraseTable]
        exact hkn.erase pid
      · intro k pg2 hl2
        exact hpz k pg2 (lookup_eraseTable_some_imp _ _ _ _ hkn hl2)

theorem flushEntries_keys (ps : Nat) (t : List (Nat × Page)) (st : Store) :
    (flushEntries ps t st).1.map Prod.fst = t.map Prod.fst := by
  induction t generalizing st with
  | nil => rfl
  | cons e rest ih =>
      obtain ⟨a, w⟩ := e
      unfold flushEntries
      simp only [List.map_cons]
      rw [ih]

/-- A `FlushAll` pass relates old and new table entries pointwise: keys
are unchanged and every surviving frame differs from its old self at most
in the dirty flag. -/
theorem flushEntries_lookup_rel (ps : Nat) (t : List (Nat × Page))
    (st : Store) (k : Nat) :
    (lookupTable (flushEntries ps t st).1 k = none
      ∧ lookupTable t k = none)
    ∨ ∃ pg pg2, lookupTable t k = some pg
        ∧ lookupTable (flushEntries ps t st).1 k = some pg2
        ∧ pg2.pageId = pg.pageId ∧ pg2.pageSize = pg.pageSize
        ∧ pg2.data = pg.data ∧ pg2.loaded = pg.loaded
        ∧ pg2.pinCount = pg.pinCount := by
  induction t generalizing st with
  | nil => exact Or.inl ⟨rfl, rfl⟩
  | cons e rest ih =>
      obtain ⟨a, w⟩ := e
      unfold flushEntries
      by_cases hk : a = k
      · subst hk
        right
        refine ⟨w, (FlushPage st w ps).2.1, ?_, ?_, ?_, ?_, ?_, ?_, ?_⟩
        · show (if a = a then some w else lookupTable rest a) = some w
          rw [if_pos rfl]
        · show (if a = a then some (FlushPage st w ps).2.1
              else lookupTable
                (flushEntries ps rest (FlushPage st w ps).1).1 a)
            = some (FlushPage st w ps).2.1
          rw [if_pos rfl]
        · exact (FlushPage_page_meta st w ps).1
        · exact (FlushPage_page_meta st w ps).2.1
        · exact (FlushPage_page_meta st w ps).2.2.1
        · exact (FlushPage_page_meta st w ps).2.2.2.1
        · exact (FlushPage_page_meta st w ps).2.2.2.2
      · have h1 : lookupTable ((a, w) :: rest) k = lookupTable rest k := by
          show (if a = k then some w else lookupTable rest k)
            = lookupTable rest k
          rw [if_neg hk]
        have h2 : lookupTable
            ((a, (FlushPage st w ps).2.1)
              :: (flushEntries ps rest (FlushPage st w ps).1).1) k
            = lookupTable (flushEntries ps rest (FlushPage st w ps).1).1
                k := by
          show (if a = k then some (FlushPage st w ps).2.1
              else lookupTable
                (flushEntries ps rest (FlushPage st w ps).1).1 k)
            = lookupTable (flushEntries ps rest (FlushPage st w ps).1).1 k
          rw [if_neg hk]
        rw [h1]
        rcases ih (FlushPage st w ps).1 with ⟨ha, hb⟩ | hrel
        · left
          exact ⟨by rw [h2]; exact ha, hb⟩
        · right
          obtain ⟨pg, pg2, q1, q2, qs⟩ := hrel
          exact ⟨pg, pg2, q1, by rw [h2]; exact q2, qs⟩

/-- `FlushAll` preserves the structural well-formedness. -/
theorem WF_FlushAll (s : PoolState) (h : PoolWF s) : PoolWF (FlushAll s) := by
  obtain ⟨hm, hnd, hkn, hpz⟩ := h
  unfold FlushAll
  refine ⟨?_, hnd, ?_, ?_⟩
  · intro k
    show (lookupTable (flushEntries s.pageSize s.pageTable s.store).1
        k).isSome = true ↔ k ∈ s.lruList
    rcases flushEntries_lookup_rel s.pageSize s.pageTable s.store k with
      ⟨ha, hb⟩ | ⟨pg, pg2, q1, q2, qs⟩
    · rw [ha]
      have := hm k
      rw [hb] at this
      simpa using this
    · rw [q2]
      have := hm k
      rw [q1] at this
      simpa using this
  · show ((flushEntries s.pageSize s.pageTable s.store).1.map
        Prod.fst).Nodup
    rw [flushEntries_keys]
    exact hkn
  · intro k pg2 hl2
    rcases flushEntries_lookup_rel s.pageSize s.pageTable s.store k with
      ⟨ha, hb⟩ | ⟨pg, pg3, q1, q2, q3, q4, q5, q6, q7⟩
    · rw [hl2] at ha; cases ha
    · rw [hl2] at q2
      cases q2
      rw [q7]
      exact hpz k pg q1

/-- Both outcomes of `GetPage` preserve the structural well-formedness,
and every handle it returns is (momentarily) unpinned. -/
theorem WF_GetPage (s : PoolState) (no ps : Nat) (h : PoolWF s) :
    PoolWF (GetPage s no ps).2
    ∧ ∀ pg, (GetPage s no ps).1 = some pg → pg.pinCount = 0 := by
  rcases GetPage_cases s no ps with ⟨pg, hl, hg⟩ | ⟨hl, pg, hp, hid, hsz, hg, hok, hfail⟩
  · rw [hg]
    constructor
    · exact WF_touch s no h (by rw [hl]; rfl)
    · intro pg2 heq
      cases heq
      exact h.2.2.2 no _ hl
  · rw [hg]
    constructor
    · refine WF_insert (missEvicted s) no pg ?_ ?_ hp
      · exact WF_evict _ h
      · exact evict_lookup_none _ _ hl
    · intro pg2 heq
      cases heq
      exact hp

/-- Every public operation preserves the structural well-formedness. -/
theorem WF_applyOp (s : PoolState) (op : PoolOp) (h : PoolWF s) :
    PoolWF (applyOp s op) := by
  cases op with
  | readOp no ps =>
      obtain ⟨pg, hpg⟩ : ∃ pg, (GetPage s no ps).1 = some pg := by
        rcases GetPage_cases s no ps with ⟨pg, _, hg⟩ | ⟨_, pg, _, _, _, hg, _, _⟩ <;>
          exact ⟨pg, by rw [hg]⟩
      have hget : GetPage s no ps = (some pg, (GetPage s no ps).2) :=
        Prod.ext hpg rfl
      obtain ⟨hwf1, hpin⟩ := WF_GetPage s no ps h
      show PoolWF (read_page s no ps).1
      rw [read_page_state s no ps pg _ hget]
      exact WF_updateTable _ no _ hwf1
        (pin_unpin_pinCount0 pg (hpin pg hpg))
  | writeOp no ps buf =>
      obtain ⟨pg, hpg⟩ : ∃ pg, (GetPage s no ps).1 = some pg := by
        rcases GetPage_cases s no ps with ⟨pg, _, hg⟩ | ⟨_, pg, _, _, _, hg, _, _⟩ <;>
          exact ⟨pg, by rw [hg]⟩
      have hget : GetPage s no ps = (some pg, (GetPage s no ps).2) :=
        Prod.ext hpg rfl
      obtain ⟨hwf1, hpin⟩ := WF_GetPage s no ps h
      show PoolWF (write_page s no ps buf)
      rw [write_page_state s no ps buf pg _ hget]
      exact WF_updateTable _ no _ hwf1
        (pin_write_unpin_pinCount0 pg buf ps (hpin pg hpg))
  | flushAllOp => exact WF_FlushAll s h

/-- The initial pool state is structurally well formed. -/
theorem WF_mkInitState (cfg : List (Nat × Nat)) (st : Store) :
    PoolWF (mkInitState cfg st) := by
  refine ⟨fun k => ?_, List.nodup_nil, List.nodup_nil, fun k pg hl => ?_⟩
  · show (lookupTable [] k).isSome = true ↔ k ∈ ([] : List Nat)
    simp [lookupTable]
  · cases hl

/-- Structural well-formedness holds after any sequence of public
operations. -/
theorem WF_runOps (s : PoolState) (ops : List PoolOp) (h : PoolWF s) :
    PoolWF (runOps s ops) := by
  induction ops generalizing s with
  | nil => exact h
  | cons op rest ih => exact ih _ (WF_applyOp s op h)

/-- With capacity at least 1 and a well-formed full-or-below table of
unpinned frames, eviction leaves room for one insertion. -/
theorem evict_length_le (s : PoolState) (h : PoolWF s) (hc : 1 ≤ s.capacity)
    (hb : s.pageTable.length ≤ s.capacity) :
    (EvictIfNeeded s).pageTable.length + 1 ≤ s.capacity := by
  obtain ⟨hm, hnd, hkn, hpz⟩ := h
  unfold EvictIfNeeded
  split
  · rename_i hlt
    omega
  · rename_i hge
    split
    · rename_i heq
      exfalso
      cases ht : s.pageTable with
      | nil =>
          apply hge
          rw [ht]
          simpa using hc
      | cons e rest =>
          obtain ⟨a, w⟩ := e
          have hlook : lookupTable s.pageTable a = some w := by
            rw [ht]
            show (if a = a then some w else lookupTable rest a) = some w
            rw [if_pos rfl]
          have hmem : a ∈ s.lruList.reverse :=
            List.mem_reverse.mpr ((hm a).mp (by rw [hlook]; rfl))
          have := findVictim_isSome s.pageTable s.lruList.reverse a w hmem
            hlook (hpz a w hlook)
          rw [heq] at this
          cases this
    · rename_i pid pg rest2 heq
      obtain ⟨hlookv, _, _⟩ := findVictim_some_spec _ _ _ _ _ heq
      have := length_eraseTable_of_mem s.pageTable pid pg hlookv
      show (eraseTable s.pageTable pid).length + 1 ≤ s.capacity
      omega

/-- `GetPage` keeps the table within a capacity of at least one. -/
theorem GetPage_length_le (s : PoolState) (no ps : Nat) (h : PoolWF s)
    (hc : 1 ≤ s.capacity) (hb : s.pageTable.length ≤ s.capacity) :
    (GetPage s no ps).2.pageTable.length ≤ s.capacity := by
  rcases GetPage_cases s no ps with ⟨pg, hl, hg⟩ | ⟨hl, pg, hp, hid, hsz, hg, hok, hfail⟩
  · rw [hg]; exact hb
  · rw [hg]
    show ((no, pg) :: (missEvicted s).pageTable).length ≤ s.capacity
    rw [List.length_cons]
    exact evict_length_le { s with missCount := s.missCount + 1 } h hc hb

/-- Public operations never change the configured capacity. -/
theorem applyOp_capacity (s : PoolState) (op : PoolOp) :
    (applyOp s op).capacity = s.capacity := by
  cases op with
  | readOp no ps =>
      obtain ⟨pg, hpg⟩ : ∃ pg, (GetPage s no ps).1 = some pg := by
        rcases GetPage_cases s no ps with ⟨pg, _, hg⟩ | ⟨_, pg, _, _, _, hg, _, _⟩ <;>
          exact ⟨pg, by rw [hg]⟩
      show (read_page s no ps).1.capacity = s.capacity
      rw [read_page_state s no ps pg _ (Prod.ext hpg rfl)]
      exact (GetPage_fixed s no ps).1
  | writeOp no ps buf =>
      obtain ⟨pg, hpg⟩ : ∃ pg, (GetPage s no ps).1 = some pg := by
        rcases GetPage_cases s no ps with ⟨pg, _, hg⟩ | ⟨_, pg, _, _, _, hg, _, _⟩ <;>
          exact ⟨pg, by rw [hg]⟩
      show (write_page s no ps buf).capacity = s.capacity
      rw [write_page_state s no ps buf pg _ (Prod.ext hpg rfl)]
      exact (GetPage_fixed s no ps).1
  | flushAllOp => rfl

/-- A public operation keeps the table within a capacity of at least 1. -/
theorem applyOp_length_le (s : PoolState) (op : PoolOp) (h : PoolWF s)
    (hc : 1 ≤ s.capacity) (hb : s.pageTable.length ≤ s.capacity) :
    (applyOp s op).pageTable.length ≤ s.capacity := by
  cases op with
  | readOp no ps =>
      obtain ⟨pg, hpg⟩ : ∃ pg, (GetPage s no ps).1 = some pg := by
        rcases GetPage_cases s no ps with ⟨pg, _, hg⟩ | ⟨_, pg, _, _, _, hg, _, _⟩ <;>
          exact ⟨pg, by rw [hg]⟩
      show (read_page s no ps).1.pageTable.length ≤ s.capacity
      rw [read_page_state s no ps pg _ (Prod.ext hpg rfl)]
      show (updateTable (GetPage s no ps).2.pageTable no _).length
        ≤ s.capacity
      rw [length_updateTable]
      exact GetPage_length_le s no ps h hc hb
  | writeOp no ps buf =>
      obtain ⟨pg, hpg⟩ : ∃ pg, (GetPage s no ps).1 = some pg := by
        rcases GetPage_cases s no ps with ⟨pg, _, hg⟩ | ⟨_, pg, _, _, _, hg, _, _⟩ <;>
          exact ⟨pg, by rw [hg]⟩
      show (write_page s no ps buf).pageTable.length ≤ s.capacity
      rw [write_page_state s no ps buf pg _ (Prod.ext hpg rfl)]
      show (updateTable (GetPage s no ps).2.pageTable no _).length
        ≤ s.capacity
      rw [length_updateTable]
      exact GetPage_length_le s no ps h hc hb
  | flushAllOp =>
      show (flushEntries s.pageSize s.pageTable s.store).1.length
        ≤ s.capacity
      have hkeys := congrArg List.length
        (flushEntries_keys s.pageSize s.pageTable s.store)
      simp only [List.length_map] at hkeys
      omega

/-- Over any operation sequence, the table stays within a capacity of at
least 1, and the capacity never changes. -/
theorem bounded_runOps (s : PoolState) (ops : List PoolOp) (h : PoolWF s)
    (hc : 1 ≤ s.capacity) (hb : s.pageTable.length ≤ s.capacity) :
    (runOps s ops).pageTable.length ≤ s.capacity
    ∧ (runOps s ops).capacity = s.capacity := by
  induction ops generalizing s with
  | nil => exact ⟨hb, rfl⟩
  | cons op rest ih =>
      have hcap := applyOp_capacity s op
      have h2 := WF_applyOp s op h
      have hlen := applyOp_length_le s op h hc hb
      obtain ⟨r1, r2⟩ := ih (applyOp s op) h2 (by rw [hcap]; exact hc)
        (by rw [hcap]; exact hlen)
      refine ⟨by rw [hcap] at r1; exact r1, ?_⟩
      show (runOps (applyOp s op) rest).capacity = s.capacity
      rw [r2]
      exact hcap

theorem pin_fields (pg : Page) :
    (pg.pin).data = pg.data ∧ (pg.pin).dirty = pg.dirty
    ∧ (pg.pin).loaded = pg.loaded ∧ (pg.pin).pageId = pg.pageId
    ∧ (pg.pin).pageSize = pg.pageSize :=
  ⟨rfl, rfl, rfl, rfl, rfl⟩

theorem unpin_fields (pg : Page) :
    ((pg.unpin).1).data = pg.data ∧ ((pg.unpin).1).dirty = pg.dirty
    ∧ ((pg.unpin).1).loaded = pg.loaded
    ∧ ((pg.unpin).1).pageId = pg.pageId
    ∧ ((pg.unpin).1).pageSize = pg.pageSize := by
  simp only [Page.unpin]
  by_cases h : pg.pinCount ≤ 0
  · simp [if_pos h]
  · simp [if_neg h]

theorem range_map_getD (b : List Byte) :
    (List.range b.length).map (fun i => b.getD i 0) = b := by
  apply List.ext_getElem
  · simp
  · intro i h1 h2
    simp only [List.getElem_map, List.getElem_range]
    exact List.getD_eq_getElem b 0 h2

/-- A full-page `WriteAt` (offset 0, length = frame size) replaces the
whole buffer. -/
theorem WriteAt_full (pg : Page) (buf : List Byte) (ps : Nat)
    (hsz : pg.pageSize = ps) (hlen : pg.data.length = ps) (hps : 1 ≤ ps) :
    (pg.WriteAt 0 buf ps).1
      = { pg with data := (List.range ps).map (fun i => buf.getD i 0),
                  loaded := true, dirty := true } := by
  unfold Page.WriteAt
  rw [if_neg (by rw [hsz]; omega)]
  have h1 : min ps (pg.pageSize - 0) = ps := by rw [hsz]; omega
  simp only [h1, List.take_zero, Nat.zero_add, List.nil_append]
  have h2 : pg.data.drop ps = [] := by
    rw [← hlen]
    exact List.drop_length pg.data
  rw [h2, List.append_nil]

/-- A full-page `ReadAt` (offset 0, length = frame size) of a loaded frame
returns the whole buffer. -/
theorem ReadAt_full (pg : Page) (ps : Nat) (hsz : pg.pageSize = ps)
    (hlen : pg.data.length = ps) (hld : pg.loaded = true) (hps : 1 ≤ ps) :
    pg.ReadAt 0 ps = pg.data := by
  unfold Page.ReadAt
  rw [if_neg (by rw [hsz]; omega), if_neg (by simp [hld])]
  have h1 : min ps (pg.pageSize - 0) = ps := by rw [hsz]; omega
  rw [h1, List.drop_zero, ← hlen, List.take_length]

/-- Fields of the frame written back by `write_page` (pin, full-page
write, unpin). -/
theorem after_write_fields (pg : Page) (buf : List Byte) (ps : Nat)
    (hsz : pg.pageSize = ps) (hlen : pg.data.length = ps) (hps : 1 ≤ ps) :
    ((((pg.pin).WriteAt 0 buf ps).1.unpin).1).data
        = (List.range ps).map (fun i => buf.getD i 0)
    ∧ ((((pg.pin).WriteAt 0 buf ps).1.unpin).1).dirty = true
    ∧ ((((pg.pin).WriteAt 0 buf ps).1.unpin).1).loaded = true
    ∧ ((((pg.pin).WriteAt 0 buf ps).1.unpin).1).pageId = pg.pageId
    ∧ ((((pg.pin).WriteAt 0 buf ps).1.unpin).1).pageSize = ps := by
  have hw := WriteAt_full (pg.pin) buf ps hsz hlen hps
  obtain ⟨u1, u2, u3, u4, u5⟩ := unpin_fields ((pg.pin).WriteAt 0 buf ps).1
  refine ⟨?_, ?_, ?_, ?_, ?_⟩
  · rw [u1, hw]
  · rw [u2, hw]
  · rw [u3, hw]
  · rw [u4, hw]
    rfl
  · rw [u5, hw]
    exact hsz

theorem lookup_updateTable_some2 (t : List (Nat × Page)) (no k : Nat)
    (pgnew pg2 : Page)
    (h : lookupTable (updateTable t no pgnew) k = some pg2) :
    (k = no ∧ pg2 = pgnew) ∨ lookupTable t k = some pg2 := by
  by_cases hk : k = no
  · subst hk
    induction t with
    | nil => cases h
    | cons e rest ih =>
        obtain ⟨a, w⟩ := e
        unfold updateTable at h
        by_cases ha : a = k
        · rw [if_pos ha] at h
          subst ha
          unfold lookupTable at h
          rw [if_pos rfl] at h
          exact Or.inl ⟨rfl, (Option.some.inj h).symm⟩
        · rw [if_neg ha] at h
          unfold lookupTable at h
          rw [if_neg ha] at h
          rcases ih h with h1 | h2
          · exact Or.inl h1
          · right
            show (if a = k then some w else lookupTable rest k) = some pg2
            rw [if_neg ha]
            exact h2
  · right
    rwa [lookup_updateTable_of_ne t no k pgnew hk] at h

/-- Distinct pages occupy disjoint byte spans of the backing file. -/
theorem span_disjoint (k pid ps i : Nat) (hne : k ≠ pid) (hi : i < ps) :
    ¬(pid * ps ≤ k * ps + i ∧ k * ps + i < pid * ps + ps) := by
  rintro ⟨h1, h2⟩
  rcases Nat.lt_or_ge k pid with hlt | hge
  · have hstep : (k + 1) * ps ≤ pid * ps := Nat.mul_le_mul_right ps hlt
    have : k * ps + i < (k + 1) * ps := by
      rw [Nat.succ_mul]
      omega
    omega
  · have hgt : pid < k := lt_of_le_of_ne hge (Ne.symm hne)
    have hstep : (pid + 1) * ps ≤ k * ps := Nat.mul_le_mul_right ps hgt
    rw [Nat.succ_mul] at hstep
    omega

/-- The bytes copied out by `read_page`, given the `GetPage` outcome. -/
theorem read_page_out (s : PoolState) (no ps : Nat) (pg : Page)
    (s1 : PoolState) (hget : GetPage s no ps = (some pg, s1)) :
    (read_page s no ps).2 = (pg.pin).ReadAt 0 ps := by
  unfold read_page
  rw [hget]

/-- Eviction preserves frame healthiness, key uniqueness and the
represented value of every page: a dirty victim is flushed to its own span
first, a clean victim's span already agrees with the store, and other
pages' spans are untouched. -/
theorem evict_C1 (s : PoolState)
    (hg : GoodFrames s) (hkn : keysNodup s)
    (hw : s.store.failWrite = false) :
    GoodFrames (EvictIfNeeded s) ∧ keysNodup (EvictIfNeeded s)
    ∧ ∀ k b, represents s k b → represents (EvictIfNeeded s) k b := by
  unfold EvictIfNeeded
  split
  · exact ⟨hg, hkn, fun k b hrep => hrep⟩
  · split
    · exact ⟨hg, hkn, fun k b hrep => hrep⟩
    · rename_i pid pg rest2 heq
      obtain ⟨hlookv, hpin0, lft, rgt, hsplit, hrem⟩ :=
        findVictim_some_spec _ _ _ _ _ heq
      obtain ⟨hidv, hsizev, hlenv, hloadv⟩ := hg pid pg hlookv
      have hspne : ∀ k2, k2 ≠ pid →
          (FlushPage s.store pg s.pageSize).1.readBytes
              (k2 * s.pageSize) s.pageSize
            = s.store.readBytes (k2 * s.pageSize) s.pageSize := by
        intro k2 hk2
        rcases FlushPage_store_cases s.store pg s.pageSize with hc | hc
        · rw [hc]
        · rw [hc, hidv]
          apply readBytes_writeBytes_disjoint
          intro i hi
          rw [hlenv]
          exact span_disjoint k2 pid s.pageSize i hk2 hi
      have hsppid : pg.dirty = true →
          (FlushPage s.store pg s.pageSize).1.readBytes
              (pid * s.pageSize) s.pageSize = pg.data := by
        intro hd2
        rw [(FlushPage_spec s.store pg s.pageSize).2.2.2 hd2 hloadv hw,
          hidv]
        have hself := readBytes_writeBytes_self s.store
          (pid * s.pageSize) pg.data
        rw [hlenv] at hself
        exact hself
      refine ⟨?_, ?_, ?_⟩
      · intro k2 pg2 hl2
        exact hg k2 pg2 (lookup_eraseTable_some_imp _ _ _ _ hkn hl2)
      · show ((eraseTable s.pageTable pid).map Prod.fst).Nodup
        rw [keys_eraseTable]
        exact hkn.erase pid
      intro k b hrep
      constructor
      · intro pg2 hl2
        by_cases hk : k = pid
        · subst hk
          rw [lookup_eraseTable_self _ _ hkn] at hl2
          cases hl2
        · have hl3 : lookupTable s.pageTable k = some pg2 := by
            rwa [lookup_eraseTable_of_ne _ _ _ (fun hh => hk hh.symm)]
              at hl2
          obtain ⟨hdata, hdirty⟩ := hrep.1 pg2 hl3
          refine ⟨hdata, fun hdf => ?_⟩
          show (FlushPage s.store pg s.pageSize).1.readBytes
            (k * s.pageSize) s.pageSize = b
          rw [hspne k hk]
          exact hdirty hdf
      · intro hnone
        by_cases hk : k = pid
        · subst hk
          obtain ⟨hdata, hdirty⟩ := hrep.1 pg hlookv
          show (FlushPage s.store pg s.pageSize).1.readBytes
            (k * s.pageSize) s.pageSize = b
          cases hd2 : pg.dirty
          · rw [(FlushPage_spec s.store pg s.pageSize).1 hd2]
            exact hdirty hd2
          · rw [hsppid hd2]
            exact hdata
        · have hn3 : lookupTable s.pageTable k = none := by
            rwa [lookup_eraseTable_of_ne _ _ _ (fun hh => hk hh.symm)]
              at hnone
          show (FlushPage s.store pg s.pageSize).1.readBytes
            (k * s.pageSize) s.pageSize = b
          rw [hspne k hk]
          exact hrep.2 hn3

theorem storePage_missEvicted (s : PoolState) (k : Nat) :
    storePage (missEvicted s) k
      = (missEvicted s).store.readBytes (k * s.pageSize) s.pageSize := by
  unfold storePage missEvicted
  rw [(evict_fields _).2.1]

/-- Outcome of `GetPage` at the pool's page size on a healthy pool: the
state stays healthy, the returned frame is the resident one for its id
(loaded, full-size), other pages' represented values survive, and the
frame's bytes are the page's represented value. -/
theorem GetPage_C1 (s : PoolState) (j : Nat)
    (hg : GoodFrames s) (hkn : keysNodup s)
    (hsr : s.store.failRead = false) (hsw : s.store.failWrite = false)
    (hps : 1 ≤ s.pageSize) :
    ∀ pg s1, GetPage s j s.pageSize = (some pg, s1) →
      GoodFrames s1 ∧ keysNodup s1
      ∧ s1.store.failRead = false ∧ s1.store.failWrite = false
      ∧ s1.pageSize = s.pageSize
      ∧ lookupTable s1.pageTable j = some pg
      ∧ pg.pageId = j ∧ pg.pageSize = s.pageSize
      ∧ pg.data.length = s.pageSize ∧ pg.loaded = true
      ∧ (∀ k b, k ≠ j → represents s k b → represents s1 k b)
      ∧ (∀ b, represents s j b → pg.data = b) := by
  intro pg s1 hgets
  rcases GetPage_cases s j s.pageSize with ⟨pg0, hl, hgc⟩ |
    ⟨hl, pg0, hp0, hid0, hsz0, hgc, hok, hfail⟩
  · rw [hgc] at hgets
    obtain ⟨h1, h2⟩ := Prod.mk.injEq _ _ _ _ |>.mp hgets
    obtain rfl : pg0 = pg := Option.some.inj h1
    subst h2
    obtain ⟨f1, f2, f3, f4⟩ := hg j pg0 hl
    exact ⟨hg, hkn, hsr, hsw, rfl, hl, f1, f2, f3, f4,
      fun k b hkj hrep => hrep,
      fun b hrep => (hrep.1 pg0 hl).1⟩
  · rw [hgc] at hgets
    obtain ⟨h1, h2⟩ := Prod.mk.injEq _ _ _ _ |>.mp hgets
    obtain rfl : pg0 = pg := Option.some.inj h1
    subst h2
    obtain ⟨eg, ekn, erep⟩ :=
      evict_C1 { s with missCount := s.missCount + 1 } hg hkn hsw
    have hEfr : (missEvicted s).store.failRead = false := by
      show (EvictIfNeeded { s with missCount := s.missCount + 1
        }).store.failRead = false
      rw [(evict_store_flags _).1]
      exact hsr
    have hEfw : (missEvicted s).store.failWrite = false := by
      show (EvictIfNeeded { s with missCount := s.missCount + 1
        }).store.failWrite = false
      rw [(evict_store_flags _).2]
      exact hsw
    have hEps : (missEvicted s).pageSize = s.pageSize :=
      (evict_fields _).2.1
    have hEnone : lookupTable (missEvicted s).pageTable j = none :=
      evict_lookup_none _ _ hl
    obtain rfl : pg0 = loadedPage (missEvicted s).store j s.pageSize :=
      hok hEfr
    have hjne : ∀ k, k ≠ j → (j = k) = False := by
      intro k hk
      exact eq_false (fun hh => hk hh.symm)
    refine ⟨?_, ?_, hEfr, hEfw, hEps, ?_, rfl, rfl, length_readBytes _ _ _,
      rfl, ?_, ?_⟩
    · intro k2 pg2 hl2
      show pg2.pageId = k2 ∧ pg2.pageSize = (missEvicted s).pageSize
        ∧ pg2.data.length = (missEvicted s).pageSize ∧ pg2.loaded = true
      by_cases hk2 : j = k2
      · subst hk2
        unfold lookupTable at hl2
        rw [if_pos rfl] at hl2
        cases hl2
        refine ⟨rfl, hEps.symm, ?_, rfl⟩
        show ((missEvicted s).store.readBytes
          (j * s.pageSize) s.pageSize).length = (missEvicted s).pageSize
        rw [length_readBytes]
        exact hEps.symm
      · unfold lookupTable at hl2
        rw [if_neg hk2] at hl2
        exact eg k2 pg2 hl2
    · show ((j, loadedPage (missEvicted s).store j s.pageSize)
          :: (missEvicted s).pageTable).map Prod.fst |>.Nodup
      rw [List.map_cons]
      exact List.nodup_cons.mpr
        ⟨(lookupTable_eq_none_iff _ _).mp hEnone, ekn⟩
    · show lookupTable ((j, loadedPage (missEvicted s).store j s.pageSize)
          :: (missEvicted s).pageTable) j = _
      unfold lookupTable
      rw [if_pos rfl]
    · intro k b hkj hrep
      have hrepE : represents (missEvicted s) k b := erep k b hrep
      constructor
      · intro pg2 hl2
        unfold lookupTable at hl2
        rw [if_neg (fun hh => hkj hh.symm)] at hl2
        obtain ⟨hdata, hdirty⟩ := hrepE.1 pg2 hl2
        exact ⟨hdata, fun hdf => hdirty hdf⟩
      · intro hnone
        unfold lookupTable at hnone
        rw [if_neg (fun hh => hkj hh.symm)] at hnone
        exact hrepE.2 hnone
    · intro b hrep
      have hrepE : represents (missEvicted s) j b := erep j b hrep
      have h2 := hrepE.2 hEnone
      show (missEvicted s).store.readBytes (j * s.pageSize) s.pageSize = b
      rw [← storePage_missEvicted s j]
      exact h2

/-- A full-page `write_page(k, page_size, b)` leaves the pool healthy and
makes `b` the represented value of page `k`. -/
theorem write_page_C1_self (s : PoolState) (k : Nat) (b : List Byte)
    (hg : GoodFrames s) (hkn : keysNodup s)
    (hsr : s.store.failRead = false) (hsw : s.store.failWrite = false)
    (hps : 1 ≤ s.pageSize) (hb : b.length = s.pageSize) :
    GoodFrames (write_page s k s.pageSize b)
    ∧ keysNodup (write_page s k s.pageSize b)
    ∧ (write_page s k s.pageSize b).store.failRead = false
    ∧ (write_page s k s.pageSize b).store.failWrite = false
    ∧ (write_page s k s.pageSize b).pageSize = s.pageSize
    ∧ represents (write_page s k s.pageSize b) k b := by
  obtain ⟨pg, hpg⟩ : ∃ pg, (GetPage s k s.pageSize).1 = some pg := by
    rcases GetPage_cases s k s.pageSize with ⟨pg, _, hgc⟩ |
      ⟨_, pg, _, _, _, hgc, _, _⟩ <;> exact ⟨pg, by rw [hgc]⟩
  have hget : GetPage s k s.pageSize
      = (some pg, (GetPage s k s.pageSize).2) := Prod.ext hpg rfl
  obtain ⟨g1, g2, g3, g4, g5, g6, g7, g8, g9, g10, g11, g12⟩ :=
    GetPage_C1 s k hg hkn hsr hsw hps pg _ hget
  obtain ⟨a1, a2, a3, a4, a5⟩ := after_write_fields pg b s.pageSize g8 g9 hps
  have hadata : ((((pg.pin).WriteAt 0 b s.pageSize).1.unpin).1).data = b := by
    rw [a1, ← hb]
    exact range_map_getD b
  rw [write_page_state s k s.pageSize b pg _ hget]
  have hlookafter : lookupTable
      (updateTable (GetPage s k s.pageSize).2.pageTable k
        ((((pg.pin).WriteAt 0 b s.pageSize).1.unpin).1)) k
      = some ((((pg.pin).WriteAt 0 b s.pageSize).1.unpin).1) :=
    lookup_updateTable_self _ _ _ pg g6
  refine ⟨?_, ?_, g3, g4, g5, ?_, ?_⟩
  · intro k2 pg2 hl2
    show pg2.pageId = k2
      ∧ pg2.pageSize = (GetPage s k s.pageSize).2.pageSize
      ∧ pg2.data.length = (GetPage s k s.pageSize).2.pageSize
      ∧ pg2.loaded = true
    rcases lookup_updateTable_some2 _ _ _ _ _ hl2 with ⟨rfl, rfl⟩ | hl3
    · refine ⟨a4.trans g7, ?_, ?_, a3⟩
      · rw [a5, g5]
      · rw [hadata, hb, g5]
    · exact g1 k2 pg2 hl3
  · show ((updateTable (GetPage s k s.pageSize).2.pageTable k
        ((((pg.pin).WriteAt 0 b s.pageSize).1.unpin).1)).map
          Prod.fst).Nodup
    rw [keys_updateTable]
    exact g2
  · intro pg2 hl2
    rw [hlookafter] at hl2
    cases hl2
    refine ⟨hadata, fun hdf => ?_⟩
    rw [a2] at hdf
    cases hdf
  · intro hnone
    rw [hlookafter] at hnone
    cases hnone

/-- A `write_page` to a different page preserves the pool's health and the
represented value of page `k`. -/
theorem write_page_C1_other (s : PoolState) (j k : Nat)
    (b buf : List Byte) (hne : j ≠ k)
    (hg : GoodFrames s) (hkn : keysNodup s)
    (hsr : s.store.failRead = false) (hsw : s.store.failWrite = false)
    (hps : 1 ≤ s.pageSize) (hrep : represents s k b) :
    GoodFrames (write_page s j s.pageSize buf)
    ∧ keysNodup (write_page s j s.pageSize buf)
    ∧ (write_page s j s.pageSize buf).store.failRead = false
    ∧ (write_page s j s.pageSize buf).store.failWrite = false
    ∧ (write_page s j s.pageSize buf).pageSize = s.pageSize
    ∧ represents (write_page s j s.pageSize buf) k b := by
  obtain ⟨pg, hpg⟩ : ∃ pg, (GetPage s j s.pageSize).1 = some pg := by
    rcases GetPage_cases s j s.pageSize with ⟨pg, _, hgc⟩ |
      ⟨_, pg, _, _, _, hgc, _, _⟩ <;> exact ⟨pg, by rw [hgc]⟩
  have hget : GetPage s j s.pageSize
      = (some pg, (GetPage s j s.pageSize).2) := Prod.ext hpg rfl
  obtain ⟨g1, g2, g3, g4, g5, g6, g7, g8, g9, g10, g11, g12⟩ :=
    GetPage_C1 s j hg hkn hsr hsw hps pg _ hget
  obtain ⟨a1, a2, a3, a4, a5⟩ :=
    after_write_fields pg buf s.pageSize g8 g9 hps
  have hrepS : represents (GetPage s j s.pageSize).2 k b :=
    g11 k b (fun hh => hne hh.symm) hrep
  rw [write_page_state s j s.pageSize buf pg _ hget]
  have hlookne : lookupTable
      (updateTable (GetPage s j s.pageSize).2.pageTable j
        ((((pg.pin).WriteAt 0 buf s.pageSize).1.unpin).1)) k
      = lookupTable (GetPage s j s.pageSize).2.pageTable k :=
    lookup_updateTable_of_ne _ _ _ _ (fun hh => hne hh.symm)
  refine ⟨?_, ?_, g3, g4, g5, ?_, ?_⟩
  · intro k2 pg2 hl2
    show pg2.pageId = k2
      ∧ pg2.pageSize = (GetPage s j s.pageSize).2.pageSize
      ∧ pg2.data.length = (GetPage s j s.pageSize).2.pageSize
      ∧ pg2.loaded = true
    rcases lookup_updateTable_some2 _ _ _ _ _ hl2 with ⟨rfl, rfl⟩ | hl3
    · refine ⟨a4.trans g7, ?_, ?_, a3⟩
      · rw [a5, g5]
      · rw [a1]
        simp only [List.length_map, List.length_range]
        rw [g5]
    · exact g1 k2 pg2 hl3
  · show ((updateTable (GetPage s j s.pageSize).2.pageTable j
        ((((pg.pin).WriteAt 0 buf s.pageSize).1.unpin).1)).map
          Prod.fst).Nodup
    rw [keys_updateTable]
    exact g2
  · intro pg2 hl2
    rw [hlookne] at hl2
    exact hrepS.1 pg2 hl2
  · intro hnone
    rw [hlookne] at hnone
    exact hrepS.2 hnone

/-- Reading page `k` at the pool's page size returns its represented
value. -/
theorem read_page_C1_out (s : PoolState) (k : Nat) (b : List Byte)
    (hg : GoodFrames s) (hkn : keysNodup s)
    (hsr : s.store.failRead = false) (hsw : s.store.failWrite = false)
    (hps : 1 ≤ s.pageSize) (hrep : represents s k b) :
    (read_page s k s.pageSize).2 = b := by
  obtain ⟨pg, hpg⟩ : ∃ pg, (GetPage s k s.pageSize).1 = some pg := by
    rcases GetPage_cases s k s.pageSize with ⟨pg, _, hgc⟩ |
      ⟨_, pg, _, _, _, hgc, _, _⟩ <;> exact ⟨pg, by rw [hgc]⟩
  have hget : GetPage s k s.pageSize
      = (some pg, (GetPage s k s.pageSize).2) := Prod.ext hpg rfl
  obtain ⟨g1, g2, g3, g4, g5, g6, g7, g8, g9, g10, g11, g12⟩ :=
    GetPage_C1 s k hg hkn hsr hsw hps pg _ hget
  obtain ⟨p1, p2, p3, p4, p5⟩ := pin_fields pg
  rw [read_page_out s k s.pageSize pg _ hget,
    ReadAt_full (pg.pin) s.pageSize (p5.trans g8) (by rw [p1]; exact g9)
      (by rw [p3]; exact g10) hps, p1]
  exact g12 b hrep

/-- Any sequence of `write_page` calls to pages other than `k` preserves
the pool's health and the represented value of page `k`. -/
theorem runWrites_C1 (k : Nat) (b : List Byte)
    (ops : List (Nat × List Byte)) :
    ∀ s : PoolState, GoodFrames s → keysNodup s →
      s.store.failRead = false → s.store.failWrite = false →
      1 ≤ s.pageSize → represents s k b → (∀ x ∈ ops, x.1 ≠ k) →
      GoodFrames (runWrites s ops) ∧ keysNodup (runWrites s ops)
      ∧ (runWrites s ops).store.failRead = false
      ∧ (runWrites s ops).store.failWrite = false
      ∧ (runWrites s ops).pageSize = s.pageSize
      ∧ represents (runWrites s ops) k b := by
  induction ops with
  | nil =>
      intro s hg hkn hsr hsw hps hrep hops
      exact ⟨hg, hkn, hsr, hsw, rfl, hrep⟩
  | cons x rest ih =>
      obtain ⟨j, buf⟩ := x
      intro s hg hkn hsr hsw hps hrep hops
      have hjk : j ≠ k := hops (j, buf) (List.mem_cons_self _ _)
      obtain ⟨w1, w2, w3, w4, w5, w6⟩ :=
        write_page_C1_other s j k b buf hjk hg hkn hsr hsw hps hrep
      obtain ⟨r1, r2, r3, r4, r5, r6⟩ :=
        ih (write_page s j s.pageSize buf) w1 w2 w3 w4
          (by rw [w5]; exact hps) w6
          (fun y hy => hops y (List.mem_cons_of_mem _ hy))
      exact ⟨r1, r2, r3, r4, r5.trans w5, r6⟩

/-! ## Theorems -/

/-- C9: `unpin()` decrements `pin_count` and returns the new value when the
pre-decrement value was positive; when the pre-decrement value was `<= 0`
it stores `0` and returns `0`; hence `pin_count` after any unpin is never
negative, and an unpin at `pin_count = 0` leaves it at `0`. -/
theorem claim9_unpin_underflow_safe (p : Page) :
    (0 < p.pinCount →
      (p.unpin).2 = p.pinCount - 1 ∧ (p.unpin).1.pinCount = p.pinCount - 1)
    ∧ (p.pinCount ≤ 0 → (p.unpin).2 = 0 ∧ (p.unpin).1.pinCount = 0)
    ∧ 0 ≤ (p.unpin).1.pinCount
    ∧ (p.pinCount = 0 → (p.unpin).1.pinCount = 0) := by
  unfold Page.unpin
  by_cases h : p.pinCount ≤ 0
  · rw [if_pos h]
    exact ⟨fun h2 => absurd h2 (by omega), fun _ => ⟨rfl, rfl⟩, le_refl 0,
      fun _ => rfl⟩
  · rw [if_neg h]
    exact ⟨fun _ => ⟨rfl, rfl⟩, fun h2 => absurd h2 h,
      show 0 ≤ p.pinCount - 1 by omega, fun h2 => absurd (le_of_eq h2) h⟩

/-- C9 witness: a frame pinned three times unpins to two, and a frame at
pin count zero stays at zero. -/
theorem claim9_unpin_underflow_safe_witness :
    (0 < pagePinned3.pinCount ∧
      (pagePinned3.unpin).2 = pagePinned3.pinCount - 1 ∧
      (pagePinned3.unpin).1.pinCount = pagePinned3.pinCount - 1)
    ∧ (samplePage.pinCount ≤ 0 ∧
      (samplePage.unpin).2 = 0 ∧ (samplePage.unpin).1.pinCount = 0) :=
  ⟨⟨by decide, (claim9_unpin_underflow_safe pagePinned3).1 (by decide)⟩,
   ⟨by decide, (claim9_unpin_underflow_safe samplePage).2.1 (by decide)⟩⟩

/-- C10: `GetPage` always returns a non-null handle, because
`LoadPageFromDisk` constructs the frame unconditionally and returns it
even when the disk read fails (after zero-filling its buffer); hence the
null-check failure branches in `read_page`/`write_page` are unreachable. -/
theorem claim10_getpage_never_null (s : PoolState) (no pgSize : Nat) :
    ∃ pg s1, GetPage s no pgSize = (some pg, s1) := by
  unfold GetPage
  cases h : lookupTable s.pageTable no with
  | some pg => exact ⟨pg, _, rfl⟩
  | none =>
      simp only [LoadPageFromDisk]
      exact ⟨_, _, rfl⟩

/-- C7: frame byte access is bounds-safe and total.  When `offset >=
size`, `ReadAt` and `WriteAt` copy zero bytes and leave the frame (its
dirty flag included) unchanged; `ReadAt` on an unloaded frame copies zero
bytes; otherwise both copy exactly `min(len, size - offset)` bytes and
return that count, `ReadAt` reading exactly the span starting at `offset`
and `WriteAt` leaving every byte outside `[offset, offset + count)`
untouched. -/
theorem claim7_frame_access_bounds (p : Page) (offset len : Nat)
    (buf : List Byte) (hlen : p.data.length = p.pageSize) :
    (p.pageSize ≤ offset →
      p.ReadAt offset len = [] ∧ p.WriteAt offset buf len = (p, 0))
    ∧ (p.loaded = false → p.ReadAt offset len = [])
    ∧ (offset < p.pageSize → p.loaded = true →
        (p.ReadAt offset len).length = min len (p.pageSize - offset)
        ∧ p.ReadAt offset len
            = (p.data.drop offset).take (min len (p.pageSize - offset)))
    ∧ (offset < p.pageSize →
        (p.WriteAt offset buf len).2 = min len (p.pageSize - offset)
        ∧ (p.WriteAt offset buf len).1.data.length = p.pageSize
        ∧ (p.WriteAt offset buf len).1.data.take offset = p.data.take offset
        ∧ (p.WriteAt offset buf len).1.data.drop
              (offset + min len (p.pageSize - offset))
            = p.data.drop (offset + min len (p.pageSize - offset))) := by
  refine ⟨fun h => ⟨?_, ?_⟩, fun h => ?_, fun h1 h2 => ⟨?_, ?_⟩,
    fun h1 => ⟨?_, ?_, ?_, ?_⟩⟩
  · unfold Page.ReadAt; rw [if_pos h]
  · unfold Page.WriteAt; rw [if_pos h]
  · simp [Page.ReadAt, h]
  · unfold Page.ReadAt
    rw [if_neg (not_le.mpr h1), if_neg (by simp [h2])]
    simp only [List.length_take, List.length_drop, hlen]
    omega
  · unfold Page.ReadAt
    rw [if_neg (not_le.mpr h1), if_neg (by simp [h2])]
  · unfold Page.WriteAt
    rw [if_neg (not_le.mpr h1)]
  · unfold Page.WriteAt
    rw [if_neg (not_le.mpr h1)]
    simp only [List.length_append, List.length_take, List.length_drop,
      List.length_map, List.length_range, hlen]
    omega
  · unfold Page.WriteAt
    rw [if_neg (not_le.mpr h1)]
    show ((p.data.take offset ++ _) ++ _).take offset = p.data.take offset
    rw [List.append_assoc]
    exact List.take_left' (by simp [hlen]; omega)
  · unfold Page.WriteAt
    rw [if_neg (not_le.mpr h1)]
    exact List.drop_left' (by simp [hlen]; omega)

/-- C7 witness: on a loaded 4-byte frame, a read at offset 5 copies
nothing, an unloaded read copies nothing, a read of 10 bytes at offset 1
copies exactly 3, and a write of 10 bytes at offset 1 writes exactly 3 and
leaves byte 0 untouched. -/
theorem claim7_frame_access_bounds_witness :
    (samplePage.data.length = samplePage.pageSize
      ∧ samplePage.pageSize ≤ 5 ∧ samplePage.ReadAt 5 10 = []
      ∧ samplePage.WriteAt 5 [6, 6] 10 = (samplePage, 0))
    ∧ ((1 : Nat) < samplePage.pageSize
      ∧ (samplePage.ReadAt 1 10).length = min 10 (samplePage.pageSize - 1)
      ∧ (samplePage.WriteAt 1 [6, 6, 6, 6, 6, 6, 6, 6, 6, 6] 10).2
          = min 10 (samplePage.pageSize - 1)
      ∧ (samplePage.WriteAt 1 [6, 6, 6, 6, 6, 6, 6, 6, 6, 6] 10).1.data.take 1
          = samplePage.data.take 1) :=
  ⟨⟨by decide, by decide,
    ((claim7_frame_access_bounds samplePage 5 10 [6, 6] (by decide)).1
      (by decide)).1,
    ((claim7_frame_access_bounds samplePage 5 10 [6, 6] (by decide)).1
      (by decide)).2⟩,
   ⟨by decide,
    (((claim7_frame_access_bounds samplePage 1 10 [6, 6, 6, 6, 6, 6, 6, 6, 6, 6]
        (by decide)).2.2.1 (by decide) (by decide)).1),
    (((claim7_frame_access_bounds samplePage 1 10 [6, 6, 6, 6, 6, 6, 6, 6, 6, 6]
        (by decide)).2.2.2 (by decide)).1),
    (((claim7_frame_access_bounds samplePage 1 10 [6, 6, 6, 6, 6, 6, 6, 6, 6, 6]
        (by decide)).2.2.2 (by decide)).2.2.1)⟩⟩

/-- C3 counterexample: on a full pool whose only resident frame is pinned,
a missing page requested through `write_page` does NOT fail: the new frame
is loaded and inserted into the Index (which then exceeds the capacity of
1), contradicting the claim that no new frame is inserted. -/
theorem claim3_counterexample :
    (lookupTable (write_page allPinnedPool 1 2 [4, 4]).pageTable 1).isSome
      = true
    ∧ (write_page allPinnedPool 1 2 [4, 4]).pageTable.length = 2 := by
  decide

/-- C3 amended: when a miss occurs while every resident frame is pinned,
no frame is evicted, but the operation does not fail: the missing page is
still loaded and pushed into the Index and Recency (exceeding capacity),
the miss counter advances, and a retry of the same request succeeds as a
hit with no unpinning required. -/
theorem claim3_amended_all_pinned_miss_inserts (s : PoolState)
    (no pgSize : Nat) (buf : List Byte)
    (hmiss : lookupTable s.pageTable no = none)
    (hpin : ∀ k pg, lookupTable s.pageTable k = some pg →
      pg.pinCount ≠ 0) :
    ∃ pg, (write_page s no pgSize buf).pageTable = (no, pg) :: s.pageTable
      ∧ (write_page s no pgSize buf).lruList = no :: s.lruList
      ∧ (write_page s no pgSize buf).missCount = s.missCount + 1
      ∧ (write_page s no pgSize buf).hitCount = s.hitCount
      ∧ (write_page s no pgSize buf).store = s.store
      ∧ (GetPage (write_page s no pgSize buf) no pgSize).2.hitCount
          = s.hitCount + 1 := by
  obtain ⟨pgX, hload⟩ :
      ∃ p, LoadPageFromDisk s.store no pgSize = some p := ⟨_, rfl⟩
  have hev : EvictIfNeeded { s with missCount := s.missCount + 1 }
      = { s with missCount := s.missCount + 1 } :=
    evict_eq_self_of_all_pinned _ hpin
  have hget : GetPage s no pgSize
      = (some pgX, { s with missCount := s.missCount + 1,
                            pageTable := (no, pgX) :: s.pageTable,
                            lruList := no :: s.lruList }) := by
    unfold GetPage
    simp only [hmiss, hev, hload]
  have hw : write_page s no pgSize buf
      = { s with missCount := s.missCount + 1,
                 pageTable :=
                   (no, (((pgX.pin).WriteAt 0 buf pgSize).1.unpin).1)
                     :: s.pageTable,
                 lruList := no :: s.lruList } := by
    unfold write_page
    rw [hget]
    simp [updateTable]
  rw [hw]
  refine ⟨_, rfl, rfl, rfl, rfl, rfl, ?_⟩
  simp [GetPage, MoveToFront, lookupTable]

/-- C3 amended witness: the concrete all-pinned pool satisfies the
hypotheses, and the miss on page 1 inserts a frame for page 1. -/
theorem claim3_amended_all_pinned_miss_inserts_witness :
    lookupTable allPinnedPool.pageTable 1 = none
    ∧ (∀ k pg, lookupTable allPinnedPool.pageTable k = some pg →
        pg.pinCount ≠ 0)
    ∧ ∃ pg, (write_page allPinnedPool 1 2 [4, 4]).pageTable
          = (1, pg) :: allPinnedPool.pageTable
        ∧ (write_page allPinnedPool 1 2 [4, 4]).lruList
            = 1 :: allPinnedPool.lruList
        ∧ (write_page allPinnedPool 1 2 [4, 4]).missCount
            = allPinnedPool.missCount + 1
        ∧ (write_page allPinnedPool 1 2 [4, 4]).hitCount
            = allPinnedPool.hitCount
        ∧ (write_page allPinnedPool 1 2 [4, 4]).store = allPinnedPool.store
        ∧ (GetPage (write_page allPinnedPool 1 2 [4, 4]) 1 2).2.hitCount
            = allPinnedPool.hitCount + 1 := by
  have hpin : ∀ k pg, lookupTable allPinnedPool.pageTable k = some pg →
      pg.pinCount ≠ 0 := by
    intro k pg h
    unfold allPinnedPool lookupTable at h
    split at h
    · cases h; decide
    · cases h
  exact ⟨by decide, hpin,
    claim3_amended_all_pinned_miss_inserts allPinnedPool 1 2 [4, 4]
      (by decide) hpin⟩

/-- C5 counterexample: with a backing store whose reads fail permanently,
a `read_page` miss on the empty pool still increments the miss counter and
still inserts a (zero-filled, unloaded) frame for the page into the Index,
contradicting both the no-handle and the no-count parts of the claim. -/
theorem claim5_counterexample :
    (read_page failReadPool 7 2).1.missCount = 1
    ∧ (lookupTable (read_page failReadPool 7 2).1.pageTable 7).isSome
        = true := by
  decide

/-- C5 amended: on a permanent read error during a miss-path load,
`GetPage` still returns a handle to a zero-filled unloaded frame which is
inserted into the Index; the miss counter IS incremented (the hit counter
is not), and the subsequent `ReadAt` copies zero bytes, so the public
`read_page` writes nothing into the caller's buffer; `hits + misses`
counts every `GetPage` call, failed loads included. -/
theorem claim5_amended_failed_load_counted (s : PoolState) (no pgSize : Nat)
    (hmiss : lookupTable s.pageTable no = none)
    (hfr : s.store.failRead = true) :
    (read_page s no pgSize).2 = []
    ∧ (read_page s no pgSize).1.missCount = s.missCount + 1
    ∧ (read_page s no pgSize).1.hitCount = s.hitCount
    ∧ ∃ pg, lookupTable (read_page s no pgSize).1.pageTable no = some pg
        ∧ pg.loaded = false ∧ pg.data = List.replicate pgSize 0 := by
  set E := EvictIfNeeded { s with missCount := s.missCount + 1 } with hE
  have hfr2 : E.store.failRead = true := by
    rw [hE, (evict_store_flags _).1]; exact hfr
  have hmc : E.missCount = s.missCount + 1 := by
    rw [hE]; exact (evict_fields _).2.2.2
  have hhc : E.hitCount = s.hitCount := by
    rw [hE]; exact (evict_fields _).2.2.1
  have hload : LoadPageFromDisk E.store no pgSize
      = some (Page.construct no pgSize) :=
    LoadPageFromDisk_fail E.store no pgSize hfr2
  have hget : GetPage s no pgSize
      = (some (Page.construct no pgSize),
         { E with pageTable := (no, Page.construct no pgSize) :: E.pageTable,
                  lruList := no :: E.lruList }) := by
    unfold GetPage
    simp only [hmiss, ← hE, hload]
  unfold read_page
  rw [hget]
  refine ⟨?_, by simpa using hmc, by simpa using hhc, ?_⟩
  · by_cases hz : pgSize ≤ 0
    · simp [Page.ReadAt, Page.pin, Page.construct, hz]
    · simp [Page.ReadAt, Page.pin, Page.construct, hz]
  · refine ⟨(Page.construct no pgSize).pin.unpin.1, ?_, ?_, ?_⟩
    · apply lookup_updateTable_self
      show lookupTable ((no, Page.construct no pgSize) :: E.pageTable) no
        = some (Page.construct no pgSize)
      unfold lookupTable
      rw [if_pos rfl]
    · simp [Page.construct, Page.pin, Page.unpin]
    · simp [Page.construct, Page.pin, Page.unpin]

/-- C5 amended witness: the failing-read pool at a concrete miss. -/
theorem claim5_amended_failed_load_counted_witness :
    lookupTable failReadPool.pageTable 9 = none
    ∧ failReadPool.store.failRead = true
    ∧ ((read_page failReadPool 9 2).2 = []
      ∧ (read_page failReadPool 9 2).1.missCount
          = failReadPool.missCount + 1
      ∧ (read_page failReadPool 9 2).1.hitCount = failReadPool.hitCount
      ∧ ∃ pg, lookupTable (read_page failReadPool 9 2).1.pageTable 9
            = some pg
          ∧ pg.loaded = false ∧ pg.data = List.replicate 2 0) :=
  ⟨by decide, by decide,
   claim5_amended_failed_load_counted failReadPool 9 2 (by decide)
     (by decide)⟩

/-- C1: round-trip through the LRU pool.  On any healthy pool (loaded
full-size unpinned-consistent frames, unique keys, non-failing store,
capacity and page size at least 1), a `write_page(k, page_size, b)`
followed by any sequence of intervening writes to pages other than `k` —
in particular `capacity + 1` distinct ones that force `k`'s frame to be
evicted (flushed when dirty) and reloaded from the backing file — and then
a `read_page(k, page_size)` yields exactly `b`. -/
theorem claim1_roundtrip (s : PoolState) (k : Nat) (b : List Byte)
    (ops : List (Nat × List Byte))
    (hg : GoodFrames s) (hkn : keysNodup s)
    (hsr : s.store.failRead = false) (hsw : s.store.failWrite = false)
    (hcap : 1 ≤ s.capacity) (hps : 1 ≤ s.pageSize)
    (hb : b.length = s.pageSize)
    (hops : ∀ x ∈ ops, x.1 ≠ k) :
    (read_page (runWrites (write_page s k s.pageSize b) ops) k
        s.pageSize).2 = b := by
  obtain ⟨w1, w2, w3, w4, w5, w6⟩ :=
    write_page_C1_self s k b hg hkn hsr hsw hps hb
  obtain ⟨r1, r2, r3, r4, r5, r6⟩ :=
    runWrites_C1 k b ops (write_page s k s.pageSize b) w1 w2 w3 w4
      (by rw [w5]; exact hps) w6 hops
  have hpseq : (runWrites (write_page s k s.pageSize b) ops).pageSize
      = s.pageSize := r5.trans w5
  have hfinal := read_page_C1_out
    (runWrites (write_page s k s.pageSize b) ops) k b r1 r2 r3 r4
    (by rw [hpseq]; exact hps) r6
  nth_rewrite 2 [← hpseq]
  exact hfinal

/-- C1 witness: capacity 1, page size 1; write `[7]` to page 0, then two
distinct intervening writes (pages 1 and 2) that evict and flush page 0;
reading page 0 reloads it from the backing file and returns `[7]`. -/
theorem claim1_roundtrip_witness :
    (GoodFrames (mkInitState [(1, 1)] zeroStore)
      ∧ keysNodup (mkInitState [(1, 1)] zeroStore)
      ∧ (mkInitState [(1, 1)] zeroStore).store.failRead = false
      ∧ (mkInitState [(1, 1)] zeroStore).store.failWrite = false
      ∧ 1 ≤ (mkInitState [(1, 1)] zeroStore).capacity
      ∧ 1 ≤ (mkInitState [(1, 1)] zeroStore).pageSize
      ∧ [7].length = (mkInitState [(1, 1)] zeroStore).pageSize
      ∧ (∀ x ∈ [((1 : Nat), [(3 : Nat)]), (2, [4])], x.1 ≠ 0))
    ∧ (read_page (runWrites (write_page (mkInitState [(1, 1)] zeroStore) 0
          (mkInitState [(1, 1)] zeroStore).pageSize [7])
          [((1 : Nat), [(3 : Nat)]), (2, [4])]) 0
        (mkInitState [(1, 1)] zeroStore).pageSize).2 = [7] :=
  ⟨⟨fun k2 pg2 h => Option.noConfusion h, List.nodup_nil, rfl, rfl,
    by decide, by decide, by decide, by decide⟩,
   claim1_roundtrip (mkInitState [(1, 1)] zeroStore) 0 [7]
     [((1 : Nat), [(3 : Nat)]), (2, [4])]
     (fun k2 pg2 h => Option.noConfusion h) List.nodup_nil rfl rfl
     (by decide) (by decide) (by decide) (by decide)⟩

/-- C8: Index-Recency bijection invariant.  After any sequence of public
operations (read_page, write_page, flush_all) from a freshly constructed
pool, a page id is a key of the Index exactly when it appears in the
Recency list, and each resident id appears in the Recency list exactly
once; insertion, touch and eviction all preserve this. -/
theorem claim8_index_recency_bijection (cfg : List (Nat × Nat)) (st : Store)
    (ops : List PoolOp) (k : Nat) :
    ((lookupTable (runOps (mkInitState cfg st) ops).pageTable k).isSome
        = true
      ↔ k ∈ (runOps (mkInitState cfg st) ops).lruList)
    ∧ (k ∈ (runOps (mkInitState cfg st) ops).lruList →
        (runOps (mkInitState cfg st) ops).lruList.count k = 1) := by
  obtain ⟨hm, hnd, _, _⟩ := WF_runOps _ ops (WF_mkInitState cfg st)
  exact ⟨hm k, fun hk => List.count_eq_one_of_mem hnd hk⟩

/-- C4 counterexample: a pool constructed from the empty page-size map has
configured capacity 0, yet a single `write_page` (a public operation)
leaves one entry in the Index, exceeding the capacity. -/
theorem claim4_counterexample :
    (mkInitState [] zeroStore).capacity = 0
    ∧ (write_page (mkInitState [] zeroStore) 0 1 [5]).pageTable.length
        = 1 :=
  ⟨rfl, by decide⟩

/-- C4 amended: bounded residency holds for every configured capacity of
at least 1: at the end of every sequence of public operations the Index
holds at most `capacity` entries (with capacity 0, the unchecked insert
on a miss exceeds the bound). -/
theorem claim4_bounded_residency (cfg : List (Nat × Nat)) (st : Store)
    (ops : List PoolOp) (hc : 1 ≤ (mkInitState cfg st).capacity) :
    (runOps (mkInitState cfg st) ops).pageTable.length
      ≤ (mkInitState cfg st).capacity :=
  (bounded_runOps _ ops (WF_mkInitState cfg st) hc (Nat.zero_le _)).1

/-- C4 amended witness: capacity 2, four operations forcing an eviction;
the Index stays within 2 entries. -/
theorem claim4_bounded_residency_witness :
    1 ≤ (mkInitState [(8, 2)] zeroStore).capacity
    ∧ (runOps (mkInitState [(8, 2)] zeroStore)
        [PoolOp.writeOp 0 8 [1], PoolOp.writeOp 1 8 [2],
         PoolOp.writeOp 2 8 [3], PoolOp.readOp 1 8]).pageTable.length
      ≤ (mkInitState [(8, 2)] zeroStore).capacity :=
  ⟨by decide, claim4_bounded_residency [(8, 2)] zeroStore
    [PoolOp.writeOp 0 8 [1], PoolOp.writeOp 1 8 [2],
     PoolOp.writeOp 2 8 [3], PoolOp.readOp 1 8] (by decide)⟩

/-- C2 counterexample: on a full pool holding one unpinned dirty frame
over a store whose writes fail, the eviction's flush fails, yet the frame
is still removed from the Index and the Recency list and the store is left
unchanged (the dirty data is lost), contradicting the claim that the
eviction is aborted with the dirty frame still resident. -/
theorem claim2_counterexample :
    (FlushPage dirtyPoolBadStore.store dirtyPage
        dirtyPoolBadStore.pageSize).2.2 = false
    ∧ lookupTable (EvictIfNeeded dirtyPoolBadStore).pageTable 5 = none
    ∧ (EvictIfNeeded dirtyPoolBadStore).lruList = []
    ∧ (EvictIfNeeded dirtyPoolBadStore).store = dirtyPoolBadStore.store :=
  ⟨by decide, by decide, by decide, rfl⟩

/-- C2 amended: when the eviction walk selects an unpinned victim, a flush
of that frame is attempted against the backing store before the frame is
removed, and when the frame is dirty, loaded and the store is writable the
frame's bytes are persisted at its span; but the eviction removes the
victim from the Index and Recency REGARDLESS of the flush outcome: if the
flush fails the store is unchanged and the dirty frame is discarded
anyway. -/
theorem claim2_amended_evict_removes_regardless (s : PoolState) (pid : Nat)
    (pg : Page) (rest2 : List Nat)
    (hfull : ¬ s.pageTable.length < s.capacity)
    (hfind : findVictim s.pageTable s.lruList.reverse
      = some (pid, pg, rest2))
    (hkn : keysNodup s) (hln : s.lruList.Nodup) :
    lookupTable (EvictIfNeeded s).pageTable pid = none
    ∧ pid ∉ (EvictIfNeeded s).lruList
    ∧ (EvictIfNeeded s).store = (FlushPage s.store pg s.pageSize).1
    ∧ (pg.dirty = true → pg.loaded = true → s.store.failWrite = false →
        (EvictIfNeeded s).store.readBytes (pg.pageId * s.pageSize)
            pg.data.length = pg.data)
    ∧ ((FlushPage s.store pg s.pageSize).2.2 = false →
        (EvictIfNeeded s).store = s.store) := by
  have hred : EvictIfNeeded s
      = { s with store := (FlushPage s.store pg s.pageSize).1,
                 pageTable := eraseTable s.pageTable pid,
                 lruList := rest2.reverse } := by
    unfold EvictIfNeeded
    rw [if_neg hfull]
    simp only [hfind]
  obtain ⟨hlook, hpin0, lft, rgt, hsplit, hrem⟩ :=
    findVictim_some_spec s.pageTable s.lruList.reverse pid pg rest2 hfind
  rw [hred]
  refine ⟨lookup_eraseTable_self s.pageTable pid hkn, ?_, rfl, ?_, ?_⟩
  · show pid ∉ rest2.reverse
    have hrevnd : s.lruList.reverse.Nodup := List.nodup_reverse.mpr hln
    rw [hsplit] at hrevnd
    have hnot : pid ∉ lft ++ rgt := by
      intro hmem
      rcases List.mem_append.mp hmem with hx | hx
      · exact (List.disjoint_of_nodup_append hrevnd hx) (List.mem_cons_self _ _)
      · have := List.Nodup.of_append_right hrevnd
        exact (List.nodup_cons.mp this).1 hx
    rw [hrem]
    intro hmem
    exact hnot (List.mem_reverse.mp hmem)
  · intro hd hl hw
    rw [(FlushPage_spec s.store pg s.pageSize).2.2.2 hd hl hw]
    exact readBytes_writeBytes_self s.store (pg.pageId * s.pageSize) pg.data
  · intro hfail
    obtain ⟨h1, h2, h3, h4⟩ := FlushPage_spec s.store pg s.pageSize
    cases hd : pg.dirty
    · rw [h1 hd]
    · cases hl : pg.loaded
      · rw [h2 hd hl]
      · cases hw : s.store.failWrite
        · rw [h4 hd hl hw] at hfail
          exact Bool.noConfusion hfail
        · rw [h3 hd hl hw]

/-- C2 amended witness: the concrete full dirty pool over a healthy store
satisfies the hypotheses; its eviction flushes page 5 and removes it. -/
theorem claim2_amended_evict_removes_regardless_witness :
    (¬ dirtyPoolGoodStore.pageTable.length < dirtyPoolGoodStore.capacity)
    ∧ findVictim dirtyPoolGoodStore.pageTable
        dirtyPoolGoodStore.lruList.reverse = some (5, dirtyPage, [])
    ∧ keysNodup dirtyPoolGoodStore
    ∧ dirtyPoolGoodStore.lruList.Nodup
    ∧ (lookupTable (EvictIfNeeded dirtyPoolGoodStore).pageTable 5 = none
      ∧ 5 ∉ (EvictIfNeeded dirtyPoolGoodStore).lruList
      ∧ (EvictIfNeeded dirtyPoolGoodStore).store
          = (FlushPage dirtyPoolGoodStore.store dirtyPage
              dirtyPoolGoodStore.pageSize).1
      ∧ (dirtyPage.dirty = true → dirtyPage.loaded = true →
          dirtyPoolGoodStore.store.failWrite = false →
          (EvictIfNeeded dirtyPoolGoodStore).store.readBytes
              (dirtyPage.pageId * dirtyPoolGoodStore.pageSize)
              dirtyPage.data.length = dirtyPage.data)
      ∧ ((FlushPage dirtyPoolGoodStore.store dirtyPage
            dirtyPoolGoodStore.pageSize).2.2 = false →
          (EvictIfNeeded dirtyPoolGoodStore).store
            = dirtyPoolGoodStore.store)) :=
  ⟨by decide, by decide, by unfold keysNodup; decide, by decide,
   claim2_amended_evict_removes_regardless dirtyPoolGoodStore 5 dirtyPage []
     (by decide) (by decide) (by unfold keysNodup; decide) (by decide)⟩

/-- C6 counterexample: constructing a pool from the empty page-size map
succeeds (no `ConfigError` is raised); the resulting pool merely has
capacity 0 and page size 0. -/
theorem claim6_counterexample :
    mkLRUBufferPool [] true zeroStore = Except.ok (mkInitState [] zeroStore)
    ∧ (mkInitState [] zeroStore).capacity = 0
    ∧ (mkInitState [] zeroStore).pageSize = 0 :=
  ⟨rfl, rfl, rfl⟩

/-- C6 amended: the constructor never validates the page-size map; with an
openable backing file it succeeds for every map (the empty map yields
capacity 0 and page size 0), and the only construction-time failure is the
backing file failing to open. -/
theorem claim6_amended_no_config_validation (cfg : List (Nat × Nat))
    (st : Store) :
    mkLRUBufferPool cfg true st = Except.ok (mkInitState cfg st)
    ∧ mkLRUBufferPool cfg false st = Except.error "Failed to open file" :=
  ⟨rfl, rfl⟩

end Gaussdb
